import Mathlib

/-!
# mig: SQL migration runner (`mig.go`, package `migpgx`)

A shallow embedding of `MigrationRunner` and of the part of its environment
that the runner talks to (directory listing, file reads, one PostgreSQL
connection), followed by the properties of the apply protocol.

Modelling conventions

* A Go `string` is a sequence of bytes: `GoString := List Nat`.  The runner
  only compares, concatenates and tests suffixes of strings, it never does
  arithmetic on a byte, so the bound `< 256` is never needed.
* An `error` is represented by its message (`err.Error()`), `nil` by `none`.
  `fmt.Errorf("ctx: %w", err)` is the concatenation of the context and the
  message of `err`.
* The database is the ledger table (absent, or the list of its `filename`
  column in insertion order) together with the rest of the database, of an
  arbitrary type `σ`.  The `id` and `applied_at` columns are filled in by the
  database and are never read or written by the runner; they are not
  modelled.  The one ledger table stands for the table named `migTable`.
* The SQL dialect is not part of the repository.  A migration body is
  interpreted by `Env.run` as a fallible transformation of the `σ` part: the
  bodies are taken not to touch the ledger table themselves.
* Everything else the runner cannot control (I/O failures, what a file
  contains) is a field of `Env`, which plays the role of the receiver
  `m *MigrationRunner` with its connection and its directory.  Failures of
  the calls made inside `applyMigration` are given per file, which is the
  transaction they occur in.
* A transaction is a working copy of the database; `Commit` installs it,
  every other way out of `applyMigration` discards it (the deferred
  `tx.Rollback`).  A failed `Commit` is taken to leave the database unchanged.
-/

namespace Mig

/-! ## Strings and errors -/

/-- A Go string: its bytes. -/
abbrev GoString := List Nat

/-- An error value, represented by its message. -/
abbrev Err := GoString

/-- The bytes of an ASCII literal of the source. -/
def ascii (s : String) : GoString := s.toList.map Char.toNat

/-- Go's `<` on strings: byte-wise lexicographic comparison, a proper prefix
being smaller.  This is the `Less` that `sort.Strings` sorts by. -/
def lessThan : GoString → GoString → Bool
  | [], [] => false
  | [], _ :: _ => true
  | _ :: _, [] => false
  | a :: as, b :: bs =>
    if a < b then true else if b < a then false else lessThan as bs

/-- Ascending order of `sort.Strings`: `a` may stand before `b` when
`b < a` is false. -/
def strLe (a b : GoString) : Prop := lessThan b a = false

instance strLe.decidable : DecidableRel strLe := fun a b =>
  inferInstanceAs (Decidable (lessThan b a = false))

/-- `strings.HasSuffix`:
`len(s) >= len(suffix) && s[len(s)-len(suffix):] == suffix`. -/
def HasSuffix (s suffix : GoString) : Bool :=
  decide (suffix.length ≤ s.length) && (s.drop (s.length - suffix.length) == suffix)

/-- `sort.Strings`.  The standard library sorts in place with pattern-defeating
quicksort; strings that compare equal are identical, so the output is the
unique ascending arrangement of the input (`sortStrings_unique`) and any
correct sorting function computes it.  Insertion sort is used here. -/
def sortStrings (l : List GoString) : List GoString :=
  List.insertionSort strLe l

/-! ## Directory -/

/-- An `os.DirEntry`, reduced to the two methods the runner calls. -/
structure DirEntry where
  name : GoString
  isDir : Bool
  deriving DecidableEq, Repr

/-- The test of the discovery loop:
`!file.IsDir() && strings.HasSuffix(file.Name(), ".sql")`. -/
def isMigration (file : DirEntry) : Bool :=
  !file.isDir && HasSuffix file.name (ascii ".sql")

/-- The loop of `getMigrationFiles`: `sqlFiles` starts empty and every entry
passing the test appends its name. -/
def collectSqlFiles (files : List DirEntry) : List GoString :=
  files.foldl (fun sqlFiles file =>
    if isMigration file then sqlFiles ++ [file.name] else sqlFiles) []

/-- `getMigrationFiles(dir)`; the argument is what `os.ReadDir(dir)` returned. -/
def getMigrationFiles (readDir : Except Err (List DirEntry)) : Except Err (List GoString) :=
  match readDir with
  | .error err => .error (ascii "error reading migration directory: " ++ err)
  | .ok files => .ok (sortStrings (collectSqlFiles files))

/-! ## Database and environment -/

/-- The database as one connection sees it: the ledger table, absent
(`none`) or holding the `filename` column of its rows in insertion order, and
the rest of the database. -/
structure DB (σ : Type) where
  ledger : Option (List GoString)
  data : σ
  deriving DecidableEq, Repr

/-- The filenames recorded in the ledger; an absent table has none. -/
def DB.rows {σ : Type} (db : DB σ) : List GoString := db.ledger.getD []

/-- How reading the ledger can go wrong. -/
inductive ReadFault where
  /-- `pgxConn.Query` returns an error. -/
  | query (err : Err)
  /-- `rows.Scan` fails on row `i` (counted from 0). -/
  | scan (i : Nat) (err : Err)
  /-- The row stream breaks after `i` rows: `rows.Next()` returns false and
  `rows.Err()` reports `err`. -/
  | iter (i : Nat) (err : Err)
  deriving DecidableEq, Repr

/-- What the runner cannot control during one run. -/
structure Env (σ : Type) where
  /-- Result of `os.ReadDir(m.migDir)`. -/
  readDir : Except Err (List DirEntry)
  /-- Result of `os.ReadFile(filepath.Join(m.migDir, file))`. -/
  readFile : GoString → Except Err GoString
  /-- Failure of the `CREATE TABLE IF NOT EXISTS` statement, if any. -/
  ddlFault : Option Err
  /-- Failure while reading the ledger, if any. -/
  readFault : Option ReadFault
  /-- Failure of `pgxConn.Begin` for the transaction of the given file. -/
  beginFault : GoString → Option Err
  /-- Failure of `SELECT pg_advisory_xact_lock(123456)` in that transaction. -/
  lockFault : GoString → Option Err
  /-- What executing a SQL body does to the rest of the database. -/
  run : GoString → σ → Except Err σ
  /-- Failure of the ledger `INSERT` other than a violated constraint. -/
  insertFault : GoString → Option Err
  /-- Failure of `tx.Commit`. -/
  commitFault : GoString → Option Err

/-- A `pgx.Rows` cursor: the rows still to be delivered, each with the
outcome of `Scan` on it, and what `Err()` reports once `Next()` has returned
false. -/
structure Rows where
  pending : List (Except Err GoString)
  err : Option Err

/-- `pgxConn.Query(ctx, "SELECT filename FROM " + migTable + ";")`. -/
def query {σ : Type} (env : Env σ) (db : DB σ) : Except Err Rows :=
  match db.ledger with
  | none => .error (ascii "relation does not exist")
  | some l =>
    match env.readFault with
    | none => .ok ⟨l.map .ok, none⟩
    | some (.query err) => .error err
    | some (.scan i err) => .ok ⟨(l.map .ok).set i (.error err), none⟩
    | some (.iter i err) => .ok ⟨(l.take i).map .ok, some err⟩

/-- The loop `for rows.Next() { rows.Scan(&filename); applied[filename] = struct{}{} }`
of `getAppliedMigrations`.  The map used as a set is a list read through
membership. -/
def scanRows : List (Except Err GoString) → List GoString → Except Err (List GoString)
  | [], applied => .ok applied
  | .error err :: _, _ => .error (ascii "failed to scan migration row: " ++ err)
  | .ok filename :: rest, applied => scanRows rest (filename :: applied)

/-- `getAppliedMigrations`.  After the loop the function returns
`applied, nil`; `rows.Err()` is not consulted. -/
def getAppliedMigrations {σ : Type} (env : Env σ) (db : DB σ) : Except Err (List GoString) :=
  match query env db with
  | .error err => .error (ascii "failed to query applied migrations: " ++ err)
  | .ok rows => scanRows rows.pending []

/-- `executeSQL` on the statement built by `ensureMigrationsTable`:
`CREATE TABLE IF NOT EXISTS` creates an empty ledger when there is none and
leaves an existing one alone. -/
def executeSQL {σ : Type} (env : Env σ) (db : DB σ) : DB σ × Option Err :=
  match env.ddlFault with
  | some err => (db, some (ascii "failed to execute query: " ++ err))
  | none => (⟨some db.rows, db.data⟩, none)

/-- `ensureMigrationsTable`. -/
def ensureMigrationsTable {σ : Type} (env : Env σ) (db : DB σ) : DB σ × Option Err :=
  executeSQL env db

/-! ## Observable actions -/

/-- The calls a run makes on behalf of one migration file. -/
inductive Op where
  | read
  | begin
  | lock
  | exec (sql : GoString)
  | insert
  | commit
  | rollback
  deriving DecidableEq, Repr

/-- One call, the file it was made for, and whether it returned without error.
The result of the deferred `tx.Rollback` is discarded by the runner; its flag
is always `true`. -/
structure Event where
  op : Op
  file : GoString
  ok : Bool
  deriving DecidableEq, Repr

/-- State after a call, the error it returned, and the calls it made. -/
structure Outcome (σ : Type) where
  db : DB σ
  err : Option Err
  trace : List Event
  deriving DecidableEq, Repr

/-- `tx.Exec(ctx, "INSERT INTO " + migTable + " (filename) VALUES ($1);", filename)`
inside the transaction; `filename` is `UNIQUE`. -/
def insertLedger {σ : Type} (env : Env σ) (filename : GoString) (tx : DB σ) :
    Except Err (DB σ) :=
  match tx.ledger with
  | none => .error (ascii "relation does not exist")
  | some rows =>
    match env.insertFault filename with
    | some err => .error err
    | none =>
      if filename ∈ rows then
        .error (ascii "duplicate key value violates unique constraint")
      else .ok ⟨some (rows ++ [filename]), tx.data⟩

/-- `applyMigration`.  The transaction works on a copy of `db`; the deferred
`tx.Rollback` discards the copy on every path that does not commit and does
nothing after a commit. -/
def applyMigration {σ : Type} (env : Env σ) (db : DB σ) (filename sqlContent : GoString) :
    Outcome σ :=
  match env.beginFault filename with
  | some err =>
    ⟨db, some (ascii "failed to begin transaction: " ++ err), [⟨.begin, filename, false⟩]⟩
  | none =>
    match env.lockFault filename with
    | some err =>
      ⟨db, some (ascii "failed to acquire advisory lock: " ++ err),
        [⟨.begin, filename, true⟩, ⟨.lock, filename, false⟩, ⟨.rollback, filename, true⟩]⟩
    | none =>
      match env.run sqlContent db.data with
      | .error err =>
        ⟨db, some (ascii "failed to execute migration " ++ filename ++ ascii ": " ++ err),
          [⟨.begin, filename, true⟩, ⟨.lock, filename, true⟩,
            ⟨.exec sqlContent, filename, false⟩, ⟨.rollback, filename, true⟩]⟩
      | .ok data =>
        match insertLedger env filename ⟨db.ledger, data⟩ with
        | .error err =>
          ⟨db, some (ascii "failed to record migration " ++ filename ++ ascii ": " ++ err),
            [⟨.begin, filename, true⟩, ⟨.lock, filename, true⟩,
              ⟨.exec sqlContent, filename, true⟩, ⟨.insert, filename, false⟩,
              ⟨.rollback, filename, true⟩]⟩
        | .ok tx =>
          match env.commitFault filename with
          | some err =>
            ⟨db, some err,
              [⟨.begin, filename, true⟩, ⟨.lock, filename, true⟩,
                ⟨.exec sqlContent, filename, true⟩, ⟨.insert, filename, true⟩,
                ⟨.commit, filename, false⟩, ⟨.rollback, filename, true⟩]⟩
          | none =>
            ⟨tx, none,
              [⟨.begin, filename, true⟩, ⟨.lock, filename, true⟩,
                ⟨.exec sqlContent, filename, true⟩, ⟨.insert, filename, true⟩,
                ⟨.commit, filename, true⟩, ⟨.rollback, filename, true⟩]⟩

/-- The loop `for _, file := range files` of `ApplyMigrations`. -/
def applyLoop {σ : Type} (env : Env σ) (appliedMigrations : List GoString) :
    List GoString → DB σ → Outcome σ
  | [], db => ⟨db, none, []⟩
  | file :: rest, db =>
    if file ∈ appliedMigrations then applyLoop env appliedMigrations rest db
    else
      match env.readFile file with
      | .error err =>
        ⟨db, some (ascii "error reading migration file " ++ file ++ ascii ": " ++ err),
          [⟨.read, file, false⟩]⟩
      | .ok sqlContent =>
        match applyMigration env db file sqlContent with
        | ⟨db₁, some err, t⟩ =>
          ⟨db₁, some (ascii "error applying migration " ++ file ++ ascii ": " ++ err),
            ⟨.read, file, true⟩ :: t⟩
        | ⟨db₁, none, t⟩ =>
          match applyLoop env appliedMigrations rest db₁ with
          | ⟨db₂, err, t₂⟩ => ⟨db₂, err, ⟨.read, file, true⟩ :: t ++ t₂⟩

/-- `ApplyMigrations`. -/
def ApplyMigrations {σ : Type} (env : Env σ) (db : DB σ) : Outcome σ :=
  match ensureMigrationsTable env db with
  | (db₁, some err) => ⟨db₁, some (ascii "failed to ensure migrations table: " ++ err), []⟩
  | (db₁, none) =>
    match getAppliedMigrations env db₁ with
    | .error err =>
      ⟨db₁, some (ascii "failed to retrieve applied migrations: " ++ err), []⟩
    | .ok appliedMigrations =>
      match getMigrationFiles env.readDir with
      | .error err =>
        ⟨db₁, some (ascii "failed to read migration directory: " ++ err), []⟩
      | .ok files => applyLoop env appliedMigrations files db₁

/-! ## Vocabulary of the properties -/

/-- What `os.ReadFile` yields for a file, the empty string when it fails. -/
def contentOf {σ : Type} (env : Env σ) (file : GoString) : GoString :=
  match env.readFile file with
  | .ok sql => sql
  | .error _ => []

/-- Cumulative effect on the rest of the database of executing, in order, the
bodies of the given files; a body that fails contributes nothing. -/
def effectsOf {σ : Type} (env : Env σ) : List GoString → σ → σ
  | [], d => d
  | file :: rest, d =>
    match env.run (contentOf env file) d with
    | .ok d₁ => effectsOf env rest d₁
    | .error _ => effectsOf env rest d

/-- The calls made for a file that is read, executed, recorded and committed. -/
def okTrace {σ : Type} (env : Env σ) (file : GoString) : List Event :=
  [⟨.read, file, true⟩, ⟨.begin, file, true⟩, ⟨.lock, file, true⟩,
    ⟨.exec (contentOf env file), file, true⟩, ⟨.insert, file, true⟩,
    ⟨.commit, file, true⟩, ⟨.rollback, file, true⟩]

/-- Files for which `applyMigration` was called, in call order: the function
starts with `Begin`. -/
def calls (trace : List Event) : List GoString :=
  (trace.filter (fun e => decide (e.op = Op.begin))).map Event.file

/-- Files whose transaction was committed, in commit order. -/
def committed (trace : List Event) : List GoString :=
  (trace.filter (fun e => decide (e.op = Op.commit) && e.ok)).map Event.file

/-- The loop body fails for `file` in state `db`, making the calls `tail`. -/
def StepFails {σ : Type} (env : Env σ) (db : DB σ) (file : GoString) (tail : List Event) :
    Prop :=
  (∃ err, env.readFile file = .error err ∧ tail = [⟨.read, file, false⟩]) ∨
  (∃ sql, env.readFile file = .ok sql ∧ (applyMigration env db file sql).err ≠ none ∧
    (applyMigration env db file sql).db = db ∧
    tail = ⟨.read, file, true⟩ :: (applyMigration env db file sql).trace)

/-- Outcome of the loop over the files `pending` (those not in the applied-set)
started with ledger `L` and data `d`: the files `done` were committed one after
the other, then either the list was exhausted or the next file failed. -/
def LoopPost {σ : Type} (env : Env σ) (pending L : List GoString) (d : σ)
    (res : Outcome σ) : Prop :=
  ∃ done tail,
    res.db = ⟨some (L ++ done), effectsOf env done d⟩ ∧
    res.trace = done.flatMap (okTrace env) ++ tail ∧
    (∀ g ∈ done, g ∉ L) ∧ done.Nodup ∧
    ((res.err = none ∧ tail = [] ∧ done = pending) ∨
      (∃ f rest e, pending = done ++ f :: rest ∧ res.err = some e ∧ f <:+: e ∧
        StepFails env res.db f tail))

/-- Two environments in which the database answers alike once the ledger has
been read: same transaction failures and same meaning of every SQL body. -/
def SameDatabase {σ : Type} (env₁ env₂ : Env σ) : Prop :=
  env₁.beginFault = env₂.beginFault ∧ env₁.lockFault = env₂.lockFault ∧
    env₁.run = env₂.run ∧ env₁.insertFault = env₂.insertFault ∧
    env₁.commitFault = env₂.commitFault

/-- The steps the run takes for one file that is not in the applied-set. -/
inductive Stage where
  | read
  | begin
  | lock
  | exec
  | insert
  | commit
  deriving DecidableEq, Repr

/-- Every step for `file` succeeds when the ledger holds `L` and the rest of
the database is `d`: the file is read, the transaction begins, the lock is
taken, the body runs and yields `d₁`, the insert meets no fault and no row of
that name, and the commit goes through. -/
def StepsSucceed {σ : Type} (env : Env σ) (L : List GoString) (d : σ) (file : GoString)
    (d₁ : σ) : Prop :=
  ∃ sql, env.readFile file = .ok sql ∧ env.beginFault file = none ∧
    env.lockFault file = none ∧ env.run sql d = .ok d₁ ∧ env.insertFault file = none ∧
    file ∉ L ∧ env.commitFault file = none

/-- Every step succeeds for each of the files in turn, each one starting from
the database its predecessors left. -/
def AllSucceed {σ : Type} (env : Env σ) : List GoString → List GoString → σ → Prop
  | [], _, _ => True
  | file :: rest, L, d =>
    ∃ d₁, StepsSucceed env L d file d₁ ∧ AllSucceed env rest (L ++ [file]) d₁

/-- The steps for `file` succeed up to `stage`, which fails with `cause`, when
the ledger holds `L` and the rest of the database is `d`.  The insert fails
on a fault of its own or, failing that, on a row of the same name. -/
def FailsAt {σ : Type} (env : Env σ) (L : List GoString) (d : σ) (file : GoString) :
    Stage → Err → Prop
  | .read, cause => env.readFile file = .error cause
  | .begin, cause => (∃ sql, env.readFile file = .ok sql) ∧ env.beginFault file = some cause
  | .lock, cause =>
    (∃ sql, env.readFile file = .ok sql) ∧ env.beginFault file = none ∧
      env.lockFault file = some cause
  | .exec, cause =>
    ∃ sql, env.readFile file = .ok sql ∧ env.beginFault file = none ∧
      env.lockFault file = none ∧ env.run sql d = .error cause
  | .insert, cause =>
    ∃ sql d₁, env.readFile file = .ok sql ∧ env.beginFault file = none ∧
      env.lockFault file = none ∧ env.run sql d = .ok d₁ ∧
      (env.insertFault file = some cause ∨
        (env.insertFault file = none ∧ file ∈ L ∧
          cause = ascii "duplicate key value violates unique constraint"))
  | .commit, cause =>
    ∃ sql d₁, env.readFile file = .ok sql ∧ env.beginFault file = none ∧
      env.lockFault file = none ∧ env.run sql d = .ok d₁ ∧ env.insertFault file = none ∧
      file ∉ L ∧ env.commitFault file = some cause

/-- The error `ApplyMigrations` returns when `file` fails at `stage` with
`cause`, as the `fmt.Errorf` calls of `ApplyMigrations` and `applyMigration`
build it; `tx.Commit`'s error is returned by `applyMigration` as it is. -/
def failMessage (file : GoString) : Stage → Err → Err
  | .read, cause => ascii "error reading migration file " ++ file ++ ascii ": " ++ cause
  | .begin, cause =>
    ascii "error applying migration " ++ file ++ ascii ": " ++
      (ascii "failed to begin transaction: " ++ cause)
  | .lock, cause =>
    ascii "error applying migration " ++ file ++ ascii ": " ++
      (ascii "failed to acquire advisory lock: " ++ cause)
  | .exec, cause =>
    ascii "error applying migration " ++ file ++ ascii ": " ++
      (ascii "failed to execute migration " ++ file ++ ascii ": " ++ cause)
  | .insert, cause =>
    ascii "error applying migration " ++ file ++ ascii ": " ++
      (ascii "failed to record migration " ++ file ++ ascii ": " ++ cause)
  | .commit, cause => ascii "error applying migration " ++ file ++ ascii ": " ++ cause

/-- The calls made for a file that fails at `stage`: the steps before it
succeed, the step itself fails, nothing follows but the deferred rollback of
a transaction that was begun. -/
def failTrace {σ : Type} (env : Env σ) (file : GoString) : Stage → List Event
  | .read => [⟨.read, file, false⟩]
  | .begin => [⟨.read, file, true⟩, ⟨.begin, file, false⟩]
  | .lock =>
    [⟨.read, file, true⟩, ⟨.begin, file, true⟩, ⟨.lock, file, false⟩,
      ⟨.rollback, file, true⟩]
  | .exec =>
    [⟨.read, file, true⟩, ⟨.begin, file, true⟩, ⟨.lock, file, true⟩,
      ⟨.exec (contentOf env file), file, false⟩, ⟨.rollback, file, true⟩]
  | .insert =>
    [⟨.read, file, true⟩, ⟨.begin, file, true⟩, ⟨.lock, file, true⟩,
      ⟨.exec (contentOf env file), file, true⟩, ⟨.insert, file, false⟩,
      ⟨.rollback, file, true⟩]
  | .commit =>
    [⟨.read, file, true⟩, ⟨.begin, file, true⟩, ⟨.lock, file, true⟩,
      ⟨.exec (contentOf env file), file, true⟩, ⟨.insert, file, true⟩,
      ⟨.commit, file, false⟩, ⟨.rollback, file, true⟩]

/-! ## Scenarios -/

/-- The file name `001_a.sql`. -/
def f001 : GoString := ascii "001_a.sql"

/-- The file name `002_b.sql`. -/
def f002 : GoString := ascii "002_b.sql"

/-- The file name `010_c.sql`. -/
def f010 : GoString := ascii "010_c.sql"

/-- A migration directory listed out of order, with a subdirectory whose name
ends in `.sql` and a file that is not a migration. -/
def demoDir : List DirEntry :=
  [⟨f010, false⟩, ⟨f001, false⟩, ⟨ascii "old.sql", true⟩, ⟨f002, false⟩,
    ⟨ascii "README.md", false⟩]

/-- An environment without failures over `demoDir`: the file `name` holds
`-- name`, and executing a body appends it to a log of executed statements. -/
def demoEnv : Env (List GoString) where
  readDir := .ok demoDir
  readFile := fun file => .ok (ascii "-- " ++ file)
  ddlFault := none
  readFault := none
  beginFault := fun _ => none
  lockFault := fun _ => none
  run := fun sql log => .ok (log ++ [sql])
  insertFault := fun _ => none
  commitFault := fun _ => none

/-- As `demoEnv`, but the body of `002_b.sql` is rejected by the database. -/
def brokenEnv : Env (List GoString) :=
  { demoEnv with
    run := fun sql log =>
      if sql = ascii "-- " ++ f002 then .error (ascii "syntax error") else .ok (log ++ [sql]) }

/-- As `demoEnv`, but the connection breaks while the ledger is read: one row
is delivered, then `rows.Next()` returns false and `rows.Err()` is non-nil. -/
def truncatedEnv : Env (List GoString) :=
  { demoEnv with readFault := some (.iter 1 (ascii "unexpected EOF")) }

/-- A database in which `001_a.sql` and `002_b.sql` were applied earlier. -/
def twoApplied : DB (List GoString) :=
  ⟨some [f001, f002], [ascii "-- " ++ f001, ascii "-- " ++ f002]⟩

/-- A database without ledger table. -/
def fresh : DB (List GoString) := ⟨none, []⟩

/-- As `demoEnv`, but the step `stage` fails for `002_b.sql`; a failing insert
is a fault of the statement, not a duplicate row. -/
def faultyEnv (stage : Stage) : Env (List GoString) :=
  { demoEnv with
    readFile := fun file =>
      if stage = .read ∧ file = f002 then .error (ascii "permission denied")
      else .ok (ascii "-- " ++ file)
    beginFault := fun file =>
      if stage = .begin ∧ file = f002 then some (ascii "conn closed") else none
    lockFault := fun file =>
      if stage = .lock ∧ file = f002 then some (ascii "canceled") else none
    run := fun sql log =>
      if stage = .exec ∧ sql = ascii "-- " ++ f002 then .error (ascii "syntax error")
      else .ok (log ++ [sql])
    insertFault := fun file =>
      if stage = .insert ∧ file = f002 then some (ascii "table dropped") else none
    commitFault := fun file =>
      if stage = .commit ∧ file = f002 then some (ascii "commit refused") else none }

/-! ## Lemmas -/

/-! ### Order and discovery -/

theorem lex_cons_cons (x y : Nat) (xs ys : List Nat) :
    List.Lex (fun a b : Nat => a < b) (x :: xs) (y :: ys) ↔
      x < y ∨ (x = y ∧ List.Lex (fun a b : Nat => a < b) xs ys) := by
  constructor
  · intro h
    cases h with
    | cons h => exact Or.inr ⟨rfl, h⟩
    | rel h => exact Or.inl h
  · rintro (h | ⟨rfl, h⟩)
    · exact List.Lex.rel h
    · exact List.Lex.cons h

theorem lessThan_iff_lex (a b : GoString) :
    lessThan a b = true ↔ List.Lex (fun x y : Nat => x < y) a b := by
  induction a generalizing b with
  | nil =>
    cases b with
    | nil => simp [lessThan]
    | cons y ys => simp [lessThan, List.Lex.nil]
  | cons x xs ih =>
    cases b with
    | nil => simp [lessThan]
    | cons y ys =>
      rw [lex_cons_cons]
      unfold lessThan
      rcases Nat.lt_trichotomy x y with h | h | h
      · simp [h]
      · subst h
        simp [ih]
      · have h1 : ¬ x < y := by omega
        have h2 : x ≠ y := by omega
        simp [h, h1, h2]

theorem strLe_total (a b : GoString) : strLe a b ∨ strLe b a := by
  unfold strLe
  induction a generalizing b with
  | nil => cases b <;> simp [lessThan]
  | cons x xs ih =>
    cases b with
    | nil => simp [lessThan]
    | cons y ys =>
      unfold lessThan
      rcases Nat.lt_trichotomy x y with h | h | h
      · have h1 : ¬ y < x := by omega
        simp [h, h1]
      · subst h
        simpa using ih ys
      · have h1 : ¬ x < y := by omega
        simp [h, h1]

theorem strLe_antisymm (a b : GoString) (hab : strLe a b) (hba : strLe b a) : a = b := by
  unfold strLe at hab hba
  induction a generalizing b with
  | nil =>
    cases b with
    | nil => rfl
    | cons y ys => simp [lessThan] at hba
  | cons x xs ih =>
    cases b with
    | nil => simp [lessThan] at hab
    | cons y ys =>
      unfold lessThan at hab hba
      rcases Nat.lt_trichotomy x y with h | h | h
      · simp [h] at hba
      · subst h
        simp at hab hba
        rw [ih ys hab hba]
      · simp [h] at hab

theorem strLe_trans (a b c : GoString) (hab : strLe a b) (hbc : strLe b c) : strLe a c := by
  unfold strLe at *
  induction a generalizing b c with
  | nil => cases c <;> simp [lessThan]
  | cons x xs ih =>
    cases b with
    | nil => simp [lessThan] at hab
    | cons y ys =>
      cases c with
      | nil => simp [lessThan] at hbc
      | cons z zs =>
        unfold lessThan at hab hbc ⊢
        by_cases hyx : y < x
        · simp [hyx] at hab
        · by_cases hzy : z < y
          · simp [hzy] at hbc
          · simp only [hyx, hzy, if_false] at hab hbc
            by_cases hxy : x < y
            · have h1 : ¬ z < x := by omega
              have h2 : x < z := by omega
              simp [h1, h2]
            · have hxy' : x = y := by omega
              subst hxy'
              simp only [hxy, if_false] at hab
              by_cases hyz : x < z
              · simp [hzy, hyz]
              · simp only [hyz, if_false] at hbc
                simp only [hzy, hyz, if_false]
                exact ih ys zs hab hbc

theorem HasSuffix_iff (s t : GoString) : HasSuffix s t = true ↔ t <:+ s := by
  unfold HasSuffix
  constructor
  · intro h
    simp only [Bool.and_eq_true, decide_eq_true_eq, beq_iff_eq] at h
    rw [← h.2]
    exact List.drop_suffix _ _
  · intro h
    obtain ⟨p, rfl⟩ := h
    simp

theorem collectSqlFiles_eq (files : List DirEntry) :
    collectSqlFiles files = (files.filter isMigration).map DirEntry.name := by
  have key : ∀ (l : List DirEntry) (acc : List GoString),
      l.foldl (fun sqlFiles file =>
        if isMigration file then sqlFiles ++ [file.name] else sqlFiles) acc
        = acc ++ (l.filter isMigration).map DirEntry.name := by
    intro l
    induction l with
    | nil => intro acc; simp
    | cons e es ih =>
      intro acc
      by_cases h : isMigration e = true
      · simp [List.foldl_cons, h, ih, List.filter_cons]
      · simp [List.foldl_cons, h, ih, List.filter_cons]
  simpa [collectSqlFiles] using key files []

theorem sortStrings_sorted (l : List GoString) : (sortStrings l).Sorted strLe := by
  haveI : IsTotal GoString strLe := ⟨strLe_total⟩
  haveI : IsTrans GoString strLe := ⟨strLe_trans⟩
  exact List.sorted_insertionSort strLe l

theorem sortStrings_perm (l : List GoString) : (sortStrings l).Perm l :=
  List.perm_insertionSort strLe l

theorem sortStrings_unique (l out : List GoString) (hs : out.Sorted strLe) (hp : out.Perm l) :
    out = sortStrings l := by
  haveI : IsAntisymm GoString strLe := ⟨strLe_antisymm⟩
  exact List.eq_of_perm_of_sorted (hp.trans (sortStrings_perm l).symm) hs (sortStrings_sorted l)

theorem sortStrings_congr {l₁ l₂ : List GoString} (h : l₁.Perm l₂) :
    sortStrings l₁ = sortStrings l₂ :=
  sortStrings_unique l₂ _ (sortStrings_sorted l₁) ((sortStrings_perm l₁).trans h)

/-! ### One migration, and the loop -/

theorem insertLedger_ok {σ : Type} (env : Env σ) (f : GoString) (tx tx₁ : DB σ)
    (h : insertLedger env f tx = .ok tx₁) :
    ∃ L, tx.ledger = some L ∧ f ∉ L ∧ tx₁ = ⟨some (L ++ [f]), tx.data⟩ := by
  unfold insertLedger at h
  cases hl : tx.ledger with
  | none => simp [hl] at h
  | some L =>
    cases hf : env.insertFault f with
    | some e => simp [hl, hf] at h
    | none =>
      by_cases hm : f ∈ L
      · simp [hl, hf, hm] at h
      · simp only [hl, hf, hm, if_false] at h
        exact ⟨L, rfl, hm, (Except.ok.inj h).symm⟩

theorem applyMigration_cases {σ : Type} (env : Env σ) (db : DB σ) (f sql : GoString)
    (L : List GoString) (hL : db.ledger = some L) :
    ((applyMigration env db f sql).err = none ∧
      ∃ d, env.run sql db.data = .ok d ∧ f ∉ L ∧
        (applyMigration env db f sql).db = ⟨some (L ++ [f]), d⟩ ∧
        (applyMigration env db f sql).trace =
          [⟨.begin, f, true⟩, ⟨.lock, f, true⟩, ⟨.exec sql, f, true⟩, ⟨.insert, f, true⟩,
            ⟨.commit, f, true⟩, ⟨.rollback, f, true⟩]) ∨
    (∃ e, (applyMigration env db f sql).err = some e ∧ (applyMigration env db f sql).db = db) := by
  cases h1 : env.beginFault f with
  | some e => right; simp [applyMigration, h1]
  | none =>
    cases h2 : env.lockFault f with
    | some e => right; simp [applyMigration, h1, h2]
    | none =>
      cases h3 : env.run sql db.data with
      | error e => right; simp [applyMigration, h1, h2, h3]
      | ok d =>
        cases h4 : insertLedger env f ⟨db.ledger, d⟩ with
        | error e => right; simp [applyMigration, h1, h2, h3, h4]
        | ok tx =>
          cases h6 : env.commitFault f with
          | some e => right; simp [applyMigration, h1, h2, h3, h4, h6]
          | none =>
            left
            obtain ⟨L₁, hL₁, hm, htx⟩ := insertLedger_ok env f _ tx h4
            simp only [hL] at hL₁
            cases hL₁
            subst htx
            simp [applyMigration, h1, h2, h3, h4, h6, hm]

theorem applyLoop_cons_applied {σ : Type} (env : Env σ) (applied : List GoString)
    (f : GoString) (fs : List GoString) (db : DB σ) (h : f ∈ applied) :
    applyLoop env applied (f :: fs) db = applyLoop env applied fs db := by
  simp [applyLoop, h]

theorem applyLoop_cons_readErr {σ : Type} (env : Env σ) (applied : List GoString)
    (f : GoString) (fs : List GoString) (db : DB σ) (h : f ∉ applied) (e : Err)
    (hr : env.readFile f = .error e) :
    applyLoop env applied (f :: fs) db =
      ⟨db, some (ascii "error reading migration file " ++ f ++ ascii ": " ++ e),
        [⟨.read, f, false⟩]⟩ := by
  simp [applyLoop, h, hr]

theorem applyLoop_cons_applyErr {σ : Type} (env : Env σ) (applied : List GoString)
    (f : GoString) (fs : List GoString) (db : DB σ) (h : f ∉ applied) (sql : GoString)
    (hr : env.readFile f = .ok sql) (e : Err)
    (he : (applyMigration env db f sql).err = some e) :
    applyLoop env applied (f :: fs) db =
      ⟨(applyMigration env db f sql).db,
        some (ascii "error applying migration " ++ f ++ ascii ": " ++ e),
        ⟨.read, f, true⟩ :: (applyMigration env db f sql).trace⟩ := by
  rw [applyLoop, if_neg h]
  simp only [hr]
  cases hm : applyMigration env db f sql with
  | mk db₁ err t =>
    rw [hm] at he
    simp only at he
    subst he
    rfl

theorem applyLoop_cons_ok {σ : Type} (env : Env σ) (applied : List GoString)
    (f : GoString) (fs : List GoString) (db : DB σ) (h : f ∉ applied) (sql : GoString)
    (hr : env.readFile f = .ok sql)
    (he : (applyMigration env db f sql).err = none) :
    applyLoop env applied (f :: fs) db =
      ⟨(applyLoop env applied fs (applyMigration env db f sql).db).db,
        (applyLoop env applied fs (applyMigration env db f sql).db).err,
        ⟨.read, f, true⟩ :: (applyMigration env db f sql).trace ++
          (applyLoop env applied fs (applyMigration env db f sql).db).trace⟩ := by
  rw [applyLoop, if_neg h]
  simp only [hr]
  cases hm : applyMigration env db f sql with
  | mk db₁ err t =>
    rw [hm] at he
    simp only at he
    subst he
    rfl

theorem DB.eta_of_ledger {σ : Type} (db : DB σ) (L : List GoString) (h : db.ledger = some L) :
    db = ⟨some L, db.data⟩ := by
  cases db
  simp only at h
  subst h
  rfl

theorem contentOf_ok {σ : Type} (env : Env σ) (f sql : GoString) (h : env.readFile f = .ok sql) :
    contentOf env f = sql := by
  simp [contentOf, h]

theorem infix_of_wrap (ctx f sep e : GoString) : f <:+: ctx ++ f ++ sep ++ e :=
  ⟨ctx, sep ++ e, by simp⟩

theorem applyLoop_post {σ : Type} (env : Env σ) (applied : List GoString) :
    ∀ (files : List GoString) (db : DB σ) (L : List GoString), db.ledger = some L →
      LoopPost env (files.filter (fun f => decide (f ∉ applied))) L db.data
        (applyLoop env applied files db) := by
  intro files
  induction files with
  | nil =>
    intro db L hL
    refine ⟨[], [], ?_, rfl, by simp, List.nodup_nil, Or.inl ⟨rfl, rfl, rfl⟩⟩
    simpa [applyLoop, effectsOf] using DB.eta_of_ledger db L hL
  | cons f fs ih =>
    intro db L hL
    by_cases hf : f ∈ applied
    · rw [applyLoop_cons_applied env applied f fs db hf]
      have : (f :: fs).filter (fun f => decide (f ∉ applied)) =
          fs.filter (fun f => decide (f ∉ applied)) := by
        simp [List.filter_cons, hf]
      rw [this]
      exact ih db L hL
    · have hfil : (f :: fs).filter (fun f => decide (f ∉ applied)) =
          f :: fs.filter (fun f => decide (f ∉ applied)) := by
        simp [List.filter_cons, hf]
      rw [hfil]
      cases hr : env.readFile f with
      | error e =>
        rw [applyLoop_cons_readErr env applied f fs db hf e hr]
        refine ⟨[], [⟨.read, f, false⟩], ?_, rfl, by simp, List.nodup_nil, Or.inr ?_⟩
        · simpa [effectsOf] using DB.eta_of_ledger db L hL
        · exact ⟨f, _, _, rfl, rfl, infix_of_wrap _ f _ e, Or.inl ⟨e, hr, rfl⟩⟩
      | ok sql =>
        rcases applyMigration_cases env db f sql L hL with ⟨hnone, d₁, hrun, hfL, hdb, htr⟩ | ⟨e, he, hdb⟩
        · rw [applyLoop_cons_ok env applied f fs db hf sql hr hnone]
          have hL₁ : (applyMigration env db f sql).db.ledger = some (L ++ [f]) := by rw [hdb]
          obtain ⟨done, tail, h1, h2, h3, h4, h5⟩ := ih (applyMigration env db f sql).db (L ++ [f]) hL₁
          have hd₁ : (applyMigration env db f sql).db.data = d₁ := by rw [hdb]
          rw [hd₁] at h1
          refine ⟨f :: done, tail, ?_, ?_, ?_, ?_, ?_⟩
          · simp only [h1]
            simp [effectsOf, contentOf_ok env f sql hr, hrun]
          · simp only [h2, htr]
            simp [okTrace, contentOf_ok env f sql hr]
          · intro g hg
            rcases List.mem_cons.1 hg with rfl | hg
            · exact hfL
            · intro hgL
              exact h3 g hg (List.mem_append_left _ hgL)
          · refine List.nodup_cons.2 ⟨?_, h4⟩
            intro hfd
            exact h3 f hfd (by simp)
          · rcases h5 with ⟨e1, e2, e3⟩ | ⟨f₁, rest, e, e1, e2, e3, e4⟩
            · exact Or.inl ⟨e1, e2, by rw [e3]⟩
            · exact Or.inr ⟨f₁, rest, e, by rw [e1]; rfl, e2, e3, e4⟩
        · rw [applyLoop_cons_applyErr env applied f fs db hf sql hr e he]
          refine ⟨[], ⟨.read, f, true⟩ :: (applyMigration env db f sql).trace, ?_, rfl,
            by simp, List.nodup_nil, Or.inr ?_⟩
          · simp only [hdb]
            simpa [effectsOf] using DB.eta_of_ledger db L hL
          · refine ⟨f, _, _, rfl, rfl, ?_, ?_⟩
            · exact infix_of_wrap _ f _ e
            · show StepFails env (applyMigration env db f sql).db f _
              rw [hdb]
              exact Or.inr ⟨sql, hr, by rw [he]; simp, hdb, rfl⟩

/-! ### Reading the ledger -/

theorem scanRows_map_ok (l acc : List GoString) :
    scanRows (l.map Except.ok) acc = .ok (l.reverse ++ acc) := by
  induction l generalizing acc with
  | nil => rfl
  | cons x xs ih => simp [scanRows, ih]

theorem scanRows_mem (rows : List (Except Err GoString)) :
    ∀ (acc out : List GoString), scanRows rows acc = .ok out →
      ∀ x ∈ out, x ∈ acc ∨ Except.ok x ∈ rows := by
  induction rows with
  | nil =>
    intro acc out h x hx
    simp only [scanRows] at h
    cases h
    exact Or.inl hx
  | cons r rs ih =>
    intro acc out h x hx
    cases r with
    | error e => simp [scanRows] at h
    | ok y =>
      simp only [scanRows] at h
      rcases ih (y :: acc) out h x hx with h1 | h1
      · rcases List.mem_cons.1 h1 with rfl | h2
        · exact Or.inr (List.mem_cons_self _ _)
        · exact Or.inl h2
      · exact Or.inr (List.mem_cons_of_mem _ h1)

theorem scanRows_error_mem (rows : List (Except Err GoString)) (e : Err)
    (h : Except.error e ∈ rows) :
    ∀ acc : List GoString, ∃ msg, scanRows rows acc = .error msg := by
  induction rows with
  | nil => simp at h
  | cons r rs ih =>
    intro acc
    cases r with
    | error e₁ => exact ⟨_, rfl⟩
    | ok y =>
      have h1 : Except.error e ∈ rs := by
        rcases List.mem_cons.1 h with h2 | h2
        · cases h2
        · exact h2
      simpa [scanRows] using ih h1 (y :: acc)

theorem getAppliedMigrations_clean {σ : Type} (env : Env σ) (db : DB σ) (L : List GoString)
    (hL : db.ledger = some L) (hf : env.readFault = none) :
    getAppliedMigrations env db = .ok L.reverse := by
  simp [getAppliedMigrations, query, hL, hf, scanRows_map_ok]

theorem getAppliedMigrations_subset {σ : Type} (env : Env σ) (db : DB σ)
    (applied : List GoString) (h : getAppliedMigrations env db = .ok applied) :
    ∀ x ∈ applied, x ∈ db.rows := by
  intro x hx
  unfold getAppliedMigrations query at h
  cases hl : db.ledger with
  | none => simp [hl] at h
  | some L =>
    have hrows : db.rows = L := by simp [DB.rows, hl]
    rw [hrows]
    cases hf : env.readFault with
    | none =>
      simp only [hl, hf] at h
      rcases scanRows_mem _ _ _ h x hx with h1 | h1
      · simp at h1
      · simpa using h1
    | some fault =>
      cases fault with
      | query e => simp [hl, hf] at h
      | scan i e =>
        simp only [hl, hf] at h
        rcases scanRows_mem _ _ _ h x hx with h1 | h1
        · simp at h1
        · rcases List.mem_or_eq_of_mem_set h1 with h2 | h2
          · simpa using h2
          · cases h2
      | iter i e =>
        simp only [hl, hf] at h
        rcases scanRows_mem _ _ _ h x hx with h1 | h1
        · simp at h1
        · rcases List.mem_map.1 h1 with ⟨y, hy, hxy⟩
          cases hxy
          exact List.mem_of_mem_take hy

/-! ### The whole run -/

theorem ensureMigrationsTable_ok {σ : Type} (env : Env σ) (db : DB σ) (h : env.ddlFault = none) :
    ensureMigrationsTable env db = (⟨some db.rows, db.data⟩, none) := by
  simp [ensureMigrationsTable, executeSQL, h]

theorem ApplyMigrations_ddlFault {σ : Type} (env : Env σ) (db : DB σ) (e : Err)
    (hd : env.ddlFault = some e) :
    ApplyMigrations env db =
      ⟨db, some (ascii "failed to ensure migrations table: " ++
        (ascii "failed to execute query: " ++ e)), []⟩ := by
  simp only [ApplyMigrations, ensureMigrationsTable, executeSQL, hd]

theorem ApplyMigrations_readErr {σ : Type} (env : Env σ) (db : DB σ) (e : Err)
    (hd : env.ddlFault = none)
    (ha : getAppliedMigrations env ⟨some db.rows, db.data⟩ = .error e) :
    ApplyMigrations env db =
      ⟨⟨some db.rows, db.data⟩,
        some (ascii "failed to retrieve applied migrations: " ++ e), []⟩ := by
  simp only [ApplyMigrations, ensureMigrationsTable, executeSQL, hd, ha]

theorem ApplyMigrations_dirErr {σ : Type} (env : Env σ) (db : DB σ) (applied : List GoString)
    (e : Err) (hd : env.ddlFault = none)
    (ha : getAppliedMigrations env ⟨some db.rows, db.data⟩ = .ok applied)
    (hr : env.readDir = .error e) :
    ApplyMigrations env db =
      ⟨⟨some db.rows, db.data⟩,
        some (ascii "failed to read migration directory: " ++
          (ascii "error reading migration directory: " ++ e)), []⟩ := by
  simp only [ApplyMigrations, ensureMigrationsTable, executeSQL, hd, ha, hr, getMigrationFiles]

theorem ApplyMigrations_loop {σ : Type} (env : Env σ) (db : DB σ) (applied : List GoString)
    (entries : List DirEntry) (hd : env.ddlFault = none)
    (ha : getAppliedMigrations env ⟨some db.rows, db.data⟩ = .ok applied)
    (hr : env.readDir = .ok entries) :
    ApplyMigrations env db =
      applyLoop env applied (sortStrings (collectSqlFiles entries)) ⟨some db.rows, db.data⟩ := by
  simp only [ApplyMigrations, ensureMigrationsTable, executeSQL, hd, ha, hr, getMigrationFiles]

theorem ApplyMigrations_post {σ : Type} (env : Env σ) (db : DB σ) :
    ((∃ e, (ApplyMigrations env db).err = some e) ∧ (ApplyMigrations env db).trace = [] ∧
      (ApplyMigrations env db).db.rows = db.rows ∧ (ApplyMigrations env db).db.data = db.data ∧
      (env.ddlFault = none → (∃ e, getAppliedMigrations env ⟨some db.rows, db.data⟩ = .error e) ∨
        ∃ e, env.readDir = .error e)) ∨
    (env.ddlFault = none ∧ ∃ applied entries,
      getAppliedMigrations env ⟨some db.rows, db.data⟩ = .ok applied ∧
      env.readDir = .ok entries ∧
      ApplyMigrations env db =
        applyLoop env applied (sortStrings (collectSqlFiles entries)) ⟨some db.rows, db.data⟩ ∧
      LoopPost env ((sortStrings (collectSqlFiles entries)).filter (fun f => decide (f ∉ applied)))
        db.rows db.data (ApplyMigrations env db)) := by
  cases hd : env.ddlFault with
  | some e =>
    left
    rw [ApplyMigrations_ddlFault env db e hd]
    exact ⟨⟨_, rfl⟩, rfl, rfl, rfl, fun h => by cases h⟩
  | none =>
    cases ha : getAppliedMigrations env ⟨some db.rows, db.data⟩ with
    | error e =>
      left
      rw [ApplyMigrations_readErr env db e hd ha]
      exact ⟨⟨_, rfl⟩, rfl, rfl, rfl, fun _ => Or.inl ⟨e, rfl⟩⟩
    | ok applied =>
      cases hr : env.readDir with
      | error e =>
        left
        rw [ApplyMigrations_dirErr env db applied e hd ha hr]
        exact ⟨⟨_, rfl⟩, rfl, rfl, rfl, fun _ => Or.inr ⟨e, rfl⟩⟩
      | ok entries =>
        right
        have heq := ApplyMigrations_loop env db applied entries hd ha hr
        refine ⟨rfl, applied, entries, rfl, rfl, heq, ?_⟩
        rw [heq]
        exact applyLoop_post env applied _ ⟨some db.rows, db.data⟩ db.rows rfl

/-! ### Traces -/

theorem applyMigration_shape {σ : Type} (env : Env σ) (db : DB σ) (f sql : GoString) :
    ((applyMigration env db f sql).trace = [⟨.begin, f, false⟩] ∧
      (applyMigration env db f sql).err ≠ none) ∨
    ((applyMigration env db f sql).trace =
        [⟨.begin, f, true⟩, ⟨.lock, f, false⟩, ⟨.rollback, f, true⟩] ∧
      (applyMigration env db f sql).err ≠ none) ∨
    ((applyMigration env db f sql).trace =
        [⟨.begin, f, true⟩, ⟨.lock, f, true⟩, ⟨.exec sql, f, false⟩, ⟨.rollback, f, true⟩] ∧
      (applyMigration env db f sql).err ≠ none) ∨
    ((applyMigration env db f sql).trace =
        [⟨.begin, f, true⟩, ⟨.lock, f, true⟩, ⟨.exec sql, f, true⟩, ⟨.insert, f, false⟩,
          ⟨.rollback, f, true⟩] ∧
      (applyMigration env db f sql).err ≠ none) ∨
    ((applyMigration env db f sql).trace =
        [⟨.begin, f, true⟩, ⟨.lock, f, true⟩, ⟨.exec sql, f, true⟩, ⟨.insert, f, true⟩,
          ⟨.commit, f, false⟩, ⟨.rollback, f, true⟩] ∧
      (applyMigration env db f sql).err ≠ none) ∨
    ((applyMigration env db f sql).trace =
        [⟨.begin, f, true⟩, ⟨.lock, f, true⟩, ⟨.exec sql, f, true⟩, ⟨.insert, f, true⟩,
          ⟨.commit, f, true⟩, ⟨.rollback, f, true⟩] ∧
      (applyMigration env db f sql).err = none) := by
  cases h1 : env.beginFault f with
  | some e => simp [applyMigration, h1]
  | none =>
    cases h2 : env.lockFault f with
    | some e => simp [applyMigration, h1, h2]
    | none =>
      cases h3 : env.run sql db.data with
      | error e => simp [applyMigration, h1, h2, h3]
      | ok d =>
        cases h4 : insertLedger env f ⟨db.ledger, d⟩ with
        | error e => simp [applyMigration, h1, h2, h3, h4]
        | ok tx =>
          cases h6 : env.commitFault f with
          | some e => simp [applyMigration, h1, h2, h3, h4, h6]
          | none => simp [applyMigration, h1, h2, h3, h4, h6]

theorem calls_append (s t : List Event) : calls (s ++ t) = calls s ++ calls t := by
  simp [calls, List.filter_append]

theorem committed_append (s t : List Event) :
    committed (s ++ t) = committed s ++ committed t := by
  simp [committed, List.filter_append]

theorem calls_flatMap_okTrace {σ : Type} (env : Env σ) (done : List GoString) :
    calls (done.flatMap (okTrace env)) = done := by
  induction done with
  | nil => rfl
  | cons f fs ih =>
    rw [List.flatMap_cons, calls_append, ih]
    simp [calls, okTrace, List.filter_cons]

theorem committed_flatMap_okTrace {σ : Type} (env : Env σ) (done : List GoString) :
    committed (done.flatMap (okTrace env)) = done := by
  induction done with
  | nil => rfl
  | cons f fs ih =>
    rw [List.flatMap_cons, committed_append, ih]
    simp [committed, okTrace, List.filter_cons]

theorem mem_flatMap_okTrace {σ : Type} (env : Env σ) (done : List GoString) (ev : Event)
    (h : ev ∈ done.flatMap (okTrace env)) : ev.file ∈ done ∧ ev.ok = true := by
  rcases List.mem_flatMap.1 h with ⟨f, hf, hev⟩
  simp only [okTrace, List.mem_cons, List.mem_singleton, List.not_mem_nil, or_false] at hev
  rcases hev with rfl | rfl | rfl | rfl | rfl | rfl | rfl <;> exact ⟨hf, rfl⟩

theorem calls_applyMigration {σ : Type} (env : Env σ) (db : DB σ) (f sql : GoString) :
    calls (applyMigration env db f sql).trace = [f] := by
  rcases applyMigration_shape env db f sql with h | h | h | h | h | h <;>
    simp [h.1, calls, List.filter_cons]

theorem committed_applyMigration_err {σ : Type} (env : Env σ) (db : DB σ) (f sql : GoString)
    (he : (applyMigration env db f sql).err ≠ none) :
    committed (applyMigration env db f sql).trace = [] := by
  rcases applyMigration_shape env db f sql with h | h | h | h | h | h
  · simp [h.1, committed, List.filter_cons]
  · simp [h.1, committed, List.filter_cons]
  · simp [h.1, committed, List.filter_cons]
  · simp [h.1, committed, List.filter_cons]
  · simp [h.1, committed, List.filter_cons]
  · exact absurd h.2 he

theorem applyMigration_trace_file {σ : Type} (env : Env σ) (db : DB σ) (f sql : GoString)
    (ev : Event) (h : ev ∈ (applyMigration env db f sql).trace) : ev.file = f := by
  rcases applyMigration_shape env db f sql with h1 | h1 | h1 | h1 | h1 | h1 <;>
    · rw [h1.1] at h
      simp only [List.mem_cons, List.mem_singleton, List.not_mem_nil, or_false] at h
      rcases h with rfl | rfl | rfl | rfl | rfl | rfl <;> rfl

theorem applyMigration_exec_false {σ : Type} (env : Env σ) (db : DB σ) (f sql s g : GoString)
    (h : (⟨.exec s, g, false⟩ : Event) ∈ (applyMigration env db f sql).trace) :
    g = f ∧ s = sql ∧ (applyMigration env db f sql).trace =
      [⟨.begin, f, true⟩, ⟨.lock, f, true⟩, ⟨.exec sql, f, false⟩, ⟨.rollback, f, true⟩] := by
  rcases applyMigration_shape env db f sql with h1 | h1 | h1 | h1 | h1 | h1
  · rw [h1.1] at h; simp at h
  · rw [h1.1] at h; simp at h
  · rw [h1.1] at h
    simp at h
    exact ⟨h.2, h.1, h1.1⟩
  · rw [h1.1] at h; simp at h
  · rw [h1.1] at h; simp at h
  · rw [h1.1] at h; simp at h

theorem StepFails.calls_committed {σ : Type} {env : Env σ} {db : DB σ} {f : GoString}
    {tail : List Event} (h : StepFails env db f tail) :
    (calls tail = [] ∨ calls tail = [f]) ∧ committed tail = [] ∧ tail ≠ [] ∧
      ∀ ev ∈ tail, ev.file = f := by
  rcases h with ⟨e, _, rfl⟩ | ⟨sql, _, he, _, rfl⟩
  · refine ⟨Or.inl (by simp [calls]), by simp [committed], by simp, ?_⟩
    intro ev hev
    simp at hev
    rw [hev]
  · refine ⟨Or.inr ?_, ?_, by simp, ?_⟩
    · have := calls_applyMigration env db f sql
      simpa [calls, List.filter_cons] using this
    · have := committed_applyMigration_err env db f sql he
      simpa [committed, List.filter_cons] using this
    · intro ev hev
      rcases List.mem_cons.1 hev with rfl | h1
      · rfl
      · exact applyMigration_trace_file env db f sql ev h1

theorem applyLoop_all_applied {σ : Type} (env : Env σ) (applied : List GoString) :
    ∀ (files : List GoString) (db : DB σ), (∀ f ∈ files, f ∈ applied) →
      applyLoop env applied files db = ⟨db, none, []⟩ := by
  intro files
  induction files with
  | nil => intro db _; rfl
  | cons f fs ih =>
    intro db h
    rw [applyLoop_cons_applied env applied f fs db (h f (List.mem_cons_self _ _))]
    exact ih db (fun g hg => h g (List.mem_cons_of_mem _ hg))

theorem rows_mk {σ : Type} (L : List GoString) (d : σ) : (DB.mk (some L) d).rows = L := rfl

theorem DB.eta_rows {σ : Type} (db : DB σ) (L : List GoString) (h : db.ledger = some L) :
    (⟨some db.rows, db.data⟩ : DB σ) = db := by
  cases db
  simp only at h
  subst h
  rfl

/-- What every run leaves behind: the ledger it found, followed by the files it
committed, which are distinct and were not recorded before; the rest of the
database carries exactly the effects of those files. -/
theorem ApplyMigrations_rows {σ : Type} (env : Env σ) (db : DB σ) :
    ∃ done, (ApplyMigrations env db).db.rows = db.rows ++ done ∧ done.Nodup ∧
      (∀ g ∈ done, g ∉ db.rows) ∧ committed (ApplyMigrations env db).trace = done ∧
      (ApplyMigrations env db).db.data = effectsOf env done db.data := by
  rcases ApplyMigrations_post env db with ⟨_, ht, hr, hd, _⟩ | ⟨_, applied, entries, _, _, _, hpost⟩
  · exact ⟨[], by simp [hr], List.nodup_nil, by simp, by simp [ht, committed], by simp [hd, effectsOf]⟩
  · obtain ⟨done, tail, h1, h2, h3, h4, h5⟩ := hpost
    refine ⟨done, by rw [h1]; rfl, h4, h3, ?_, by rw [h1]⟩
    rw [h2, committed_append, committed_flatMap_okTrace]
    rcases h5 with ⟨_, rfl, _⟩ | ⟨f, rest, e, _, _, _, hs⟩
    · simp [committed]
    · rw [hs.calls_committed.2.1, List.append_nil]

/-! ### Runs that differ in what they never look at -/

theorem applyMigration_congr {σ : Type} (env₁ env₂ : Env σ) (hs : SameDatabase env₁ env₂)
    (db : DB σ) (f sql : GoString) :
    applyMigration env₁ db f sql = applyMigration env₂ db f sql := by
  obtain ⟨h1, h2, h3, h4, h5⟩ := hs
  simp only [applyMigration, insertLedger, h1, h2, h3, h4, h5]

theorem applyLoop_congr {σ : Type} (env₁ env₂ : Env σ) (hs : SameDatabase env₁ env₂)
    (applied : List GoString)
    (hfile : ∀ f, f ∉ applied → env₁.readFile f = env₂.readFile f) :
    ∀ (files : List GoString) (db : DB σ),
      applyLoop env₁ applied files db = applyLoop env₂ applied files db := by
  intro files
  induction files with
  | nil => intro db; rfl
  | cons f fs ih =>
    intro db
    by_cases hf : f ∈ applied
    · rw [applyLoop_cons_applied env₁ applied f fs db hf,
        applyLoop_cons_applied env₂ applied f fs db hf]
      exact ih db
    · simp only [applyLoop, if_neg hf, hfile f hf, applyMigration_congr env₁ env₂ hs, ih]

theorem getAppliedMigrations_congr {σ : Type} (env₁ env₂ : Env σ)
    (h : env₁.readFault = env₂.readFault) (db : DB σ) :
    getAppliedMigrations env₁ db = getAppliedMigrations env₂ db := by
  simp only [getAppliedMigrations, query, h]

theorem ApplyMigrations_congr {σ : Type} (env₁ env₂ : Env σ) (hs : SameDatabase env₁ env₂)
    (hddl : env₁.ddlFault = env₂.ddlFault) (hread : env₁.readFault = env₂.readFault)
    (hdir : getMigrationFiles env₁.readDir = getMigrationFiles env₂.readDir) (db : DB σ)
    (hfile : ∀ applied, getAppliedMigrations env₁ (ensureMigrationsTable env₁ db).1 = .ok applied →
      ∀ f, f ∉ applied → env₁.readFile f = env₂.readFile f) :
    ApplyMigrations env₁ db = ApplyMigrations env₂ db := by
  have he : ensureMigrationsTable env₁ db = ensureMigrationsTable env₂ db := by
    simp only [ensureMigrationsTable, executeSQL, hddl]
  unfold ApplyMigrations
  rw [← he, ← hdir]
  cases hd : ensureMigrationsTable env₁ db with
  | mk db₁ err =>
    cases err with
    | some e => rfl
    | none =>
      simp only
      rw [← getAppliedMigrations_congr env₁ env₂ hread]
      cases ha : getAppliedMigrations env₁ db₁ with
      | error e => rfl
      | ok applied =>
        simp only
        cases hf : getMigrationFiles env₁.readDir with
        | error e => rfl
        | ok files =>
          simp only
          refine applyLoop_congr env₁ env₂ hs applied ?_ files db₁
          apply hfile applied
          rw [hd]
          exact ha

theorem getMigrationFiles_perm (l₁ l₂ : List DirEntry) (h : l₁.Perm l₂) :
    getMigrationFiles (.ok l₁) = getMigrationFiles (.ok l₂) := by
  simp only [getMigrationFiles, collectSqlFiles_eq]
  exact congrArg Except.ok (sortStrings_congr ((h.filter _).map _))

theorem getMigrationFiles_ok (r : Except Err (List DirEntry)) (files : List GoString)
    (h : getMigrationFiles r = .ok files) :
    ∃ entries, r = .ok entries ∧ files = sortStrings (collectSqlFiles entries) := by
  cases r with
  | error e => simp [getMigrationFiles] at h
  | ok entries =>
    simp only [getMigrationFiles] at h
    exact ⟨entries, rfl, (Except.ok.inj h).symm⟩

theorem getMigrationFiles_nodup (entries : List DirEntry)
    (h : (entries.map DirEntry.name).Nodup) : (sortStrings (collectSqlFiles entries)).Nodup := by
  rw [(sortStrings_perm _).nodup_iff, collectSqlFiles_eq]
  exact h.sublist ((List.filter_sublist _).map _)

/-- A file recorded in the ledger is never committed again, and its row stays. -/
theorem recorded_not_recommitted {σ : Type} (env : Env σ) (db : DB σ) (g : GoString)
    (hg : g ∈ db.rows) :
    g ∈ (ApplyMigrations env db).db.rows ∧ g ∉ committed (ApplyMigrations env db).trace := by
  obtain ⟨done, h1, _, h3, h4, _⟩ := ApplyMigrations_rows env db
  rw [h1, h4]
  exact ⟨List.mem_append_left _ hg, fun hd => h3 g hd hg⟩

/-- When the ledger is read completely, or the run returns nil, a file recorded
in the ledger is not looked at: no call of the run is made for it. -/
theorem recorded_untouched {σ : Type} (env : Env σ) (db : DB σ) (g : GoString)
    (hg : g ∈ db.rows) (h : env.readFault = none ∨ (ApplyMigrations env db).err = none) :
    ∀ ev ∈ (ApplyMigrations env db).trace, ev.file ≠ g := by
  intro ev hev
  rcases ApplyMigrations_post env db with ⟨_, ht, _⟩ | ⟨_, applied, entries, ha, _, _, hpost⟩
  · rw [ht] at hev
    cases hev
  · obtain ⟨done, tail, _, h2, h3, _, h5⟩ := hpost
    rw [h2, List.mem_append] at hev
    rcases hev with hev | hev
    · intro heq
      exact h3 _ (mem_flatMap_okTrace env done ev hev).1 (heq ▸ hg)
    · rcases h5 with ⟨_, htail, _⟩ | ⟨f, rest, e, hp, he, _, hs⟩
      · rw [htail] at hev
        cases hev
      · rcases h with hclean | hnone
        · rw [hs.calls_committed.2.2.2 ev hev]
          have hfp : f ∈ (sortStrings (collectSqlFiles entries)).filter
              (fun f => decide (f ∉ applied)) := by
            rw [hp]
            simp
          have hfa : f ∉ applied := by simpa using (List.mem_filter.1 hfp).2
          rw [getAppliedMigrations_clean env _ db.rows rfl hclean] at ha
          cases ha
          intro heq
          exact hfa (List.mem_reverse.2 (heq ▸ hg))
        · rw [hnone] at he
          cases he

/-- The listing `demoDir` yields the three migrations in name order; the
subdirectory `old.sql` and the file `README.md` are left out. -/
theorem getMigrationFiles_demoDir :
    getMigrationFiles (.ok demoDir) = .ok [f001, f002, f010] := rfl

/-! ### The ledger read -/

theorem getAppliedMigrations_clean_rows {σ : Type} (env : Env σ) (db : DB σ)
    (applied : List GoString) (hclean : env.readFault = none)
    (h : getAppliedMigrations env db = .ok applied) : applied = db.rows.reverse := by
  cases hl : db.ledger with
  | none => simp [getAppliedMigrations, query, hl] at h
  | some L =>
    rw [getAppliedMigrations_clean env db L hl hclean] at h
    cases h
    simp [DB.rows, hl]

/-- The failures of the ledger read that `getAppliedMigrations` checks for are
fatal: when `Query` fails, or `Scan` fails on a row that exists, the function
returns an error, and `ApplyMigrations` returns it wrapped before making any
call for a migration, leaving ledger and data as they were. -/
theorem query_and_scan_failures_are_fatal {σ : Type} (env : Env σ) (db : DB σ) (e : Err)
    (i : Nat) (hddl : env.ddlFault = none)
    (hfault : env.readFault = some (.query e) ∨
      (env.readFault = some (.scan i e) ∧ i < db.rows.length)) :
    ∃ msg, getAppliedMigrations env (ensureMigrationsTable env db).1 = .error msg ∧
      (ApplyMigrations env db).err =
        some (ascii "failed to retrieve applied migrations: " ++ msg) ∧
      (ApplyMigrations env db).trace = [] ∧
      (ApplyMigrations env db).db.rows = db.rows ∧
      (ApplyMigrations env db).db.data = db.data := by
  have hget : ∃ msg, getAppliedMigrations env ⟨some db.rows, db.data⟩ = .error msg := by
    rcases hfault with hq | ⟨hs, hi⟩
    · exact ⟨ascii "failed to query applied migrations: " ++ e,
        by simp only [getAppliedMigrations, query, hq]⟩
    · simp only [getAppliedMigrations, query, hs]
      refine scanRows_error_mem _ e ?_ []
      refine List.mem_iff_getElem.2 ⟨i, by simpa using hi, ?_⟩
      simp
  obtain ⟨msg, hmsg⟩ := hget
  refine ⟨msg, ?_, ?_⟩
  · rw [ensureMigrationsTable_ok env db hddl]
    exact hmsg
  · rw [ApplyMigrations_readErr env db msg hddl hmsg]
    exact ⟨rfl, rfl, rfl, rfl⟩

/-- A broken row stream is not noticed: when the stream ends after `i` rows with
`rows.Err()` set, `getAppliedMigrations` returns the rows delivered so far and
no error. -/
theorem getAppliedMigrations_iter {σ : Type} (env : Env σ) (db : DB σ) (L : List GoString)
    (i : Nat) (e : Err) (hL : db.ledger = some L) (hf : env.readFault = some (.iter i e)) :
    getAppliedMigrations env db = .ok (L.take i).reverse := by
  simp only [getAppliedMigrations, query, hL, hf]
  rw [scanRows_map_ok, List.append_nil]

/-- When the ledger is read completely, the content of the recorded files is
irrelevant: two environments that differ only in what those files contain
give the same run. -/
theorem recorded_content_irrelevant {σ : Type} (env₁ env₂ : Env σ) (db : DB σ)
    (hs : SameDatabase env₁ env₂) (hddl : env₁.ddlFault = env₂.ddlFault)
    (hclean₁ : env₁.readFault = none) (hclean₂ : env₂.readFault = none)
    (hdir : env₁.readDir = env₂.readDir)
    (hfile : ∀ f, f ∉ db.rows → env₁.readFile f = env₂.readFile f) :
    ApplyMigrations env₁ db = ApplyMigrations env₂ db := by
  refine ApplyMigrations_congr env₁ env₂ hs hddl (by rw [hclean₁, hclean₂]) (by rw [hdir]) db ?_
  intro applied ha f hf
  apply hfile
  rw [getAppliedMigrations_clean_rows env₁ _ applied hclean₁ ha] at hf
  intro hmem
  apply hf
  rw [List.mem_reverse]
  have : (ensureMigrationsTable env₁ db).1.rows = db.rows := by
    unfold ensureMigrationsTable executeSQL
    cases env₁.ddlFault <;> rfl
  rw [this]
  exact hmem

/-! ### Steps that succeed, and the step that fails -/

theorem applyLoop_filter {σ : Type} (env : Env σ) (applied : List GoString) :
    ∀ (files : List GoString) (db : DB σ),
      applyLoop env applied files db =
        applyLoop env [] (files.filter (fun f => decide (f ∉ applied))) db := by
  intro files
  induction files with
  | nil => intro db; rfl
  | cons f fs ih =>
    intro db
    by_cases hf : f ∈ applied
    · rw [applyLoop_cons_applied env applied f fs db hf]
      have : (f :: fs).filter (fun f => decide (f ∉ applied)) =
          fs.filter (fun f => decide (f ∉ applied)) := by
        simp [List.filter_cons, hf]
      rw [this]
      exact ih db
    · have hfil : (f :: fs).filter (fun f => decide (f ∉ applied)) =
          f :: fs.filter (fun f => decide (f ∉ applied)) := by
        simp [List.filter_cons, hf]
      rw [hfil]
      simp only [applyLoop, if_neg hf, if_neg (List.not_mem_nil f), ih]

theorem applyMigration_of_steps {σ : Type} (env : Env σ) (L : List GoString) (d d₁ : σ)
    (f sql : GoString) (hb : env.beginFault f = none) (hl : env.lockFault f = none)
    (hr : env.run sql d = .ok d₁) (hi : env.insertFault f = none) (hf : f ∉ L)
    (hc : env.commitFault f = none) :
    applyMigration env ⟨some L, d⟩ f sql =
      ⟨⟨some (L ++ [f]), d₁⟩, none,
        [⟨.begin, f, true⟩, ⟨.lock, f, true⟩, ⟨.exec sql, f, true⟩, ⟨.insert, f, true⟩,
          ⟨.commit, f, true⟩, ⟨.rollback, f, true⟩]⟩ := by
  simp [applyMigration, insertLedger, hb, hl, hr, hi, hf, hc]

theorem applyLoop_of_allSucceed {σ : Type} (env : Env σ) (rest : List GoString) :
    ∀ (pre L : List GoString) (d : σ), AllSucceed env pre L d →
      applyLoop env [] (pre ++ rest) ⟨some L, d⟩ =
        ⟨(applyLoop env [] rest ⟨some (L ++ pre), effectsOf env pre d⟩).db,
          (applyLoop env [] rest ⟨some (L ++ pre), effectsOf env pre d⟩).err,
          pre.flatMap (okTrace env) ++
            (applyLoop env [] rest ⟨some (L ++ pre), effectsOf env pre d⟩).trace⟩ := by
  intro pre
  induction pre with
  | nil =>
    intro L d _
    simp [effectsOf]
  | cons p ps ih =>
    intro L d h
    obtain ⟨d₁, ⟨sql, hread, hb, hl, hr, hi, hf, hc⟩, hrest⟩ := h
    have ham := applyMigration_of_steps env L d d₁ p sql hb hl hr hi hf hc
    have hnone : (applyMigration env ⟨some L, d⟩ p sql).err = none := by rw [ham]
    rw [List.cons_append,
      applyLoop_cons_ok env [] p (ps ++ rest) ⟨some L, d⟩ (List.not_mem_nil p) sql hread hnone,
      ham]
    simp only
    rw [ih (L ++ [p]) d₁ hrest]
    have he : effectsOf env (p :: ps) d = effectsOf env ps d₁ := by
      simp [effectsOf, contentOf_ok env p sql hread, hr]
    have hL : L ++ [p] ++ ps = L ++ p :: ps := by simp
    rw [he, hL]
    simp [okTrace, contentOf_ok env p sql hread]

theorem applyLoop_of_failsAt {σ : Type} (env : Env σ) (L : List GoString) (d : σ)
    (f : GoString) (post : List GoString) (stage : Stage) (cause : Err)
    (h : FailsAt env L d f stage cause) :
    applyLoop env [] (f :: post) ⟨some L, d⟩ =
      ⟨⟨some L, d⟩, some (failMessage f stage cause), failTrace env f stage⟩ := by
  cases stage with
  | read =>
    simp only [FailsAt] at h
    simp [applyLoop, h, failMessage, failTrace]
  | begin =>
    obtain ⟨⟨sql, hread⟩, hb⟩ := h
    simp [applyLoop, applyMigration, hread, hb, failMessage, failTrace]
  | lock =>
    obtain ⟨⟨sql, hread⟩, hb, hl⟩ := h
    simp [applyLoop, applyMigration, hread, hb, hl, failMessage, failTrace]
  | exec =>
    obtain ⟨sql, hread, hb, hl, hr⟩ := h
    simp [applyLoop, applyMigration, hread, hb, hl, hr, failMessage, failTrace,
      contentOf_ok env f sql hread]
  | insert =>
    obtain ⟨sql, d₁, hread, hb, hl, hr, hi | ⟨hi, hm, rfl⟩⟩ := h
    · simp [applyLoop, applyMigration, insertLedger, hread, hb, hl, hr, hi, failMessage,
        failTrace, contentOf_ok env f sql hread]
    · simp [applyLoop, applyMigration, insertLedger, hread, hb, hl, hr, hi, hm, failMessage,
        failTrace, contentOf_ok env f sql hread]
  | commit =>
    obtain ⟨sql, d₁, hread, hb, hl, hr, hi, hm, hc⟩ := h
    simp [applyLoop, applyMigration, insertLedger, hread, hb, hl, hr, hi, hm, hc, failMessage,
      failTrace, contentOf_ok env f sql hread]

theorem infix_failMessage (f : GoString) (stage : Stage) (cause : Err) :
    f <:+: failMessage f stage cause := by
  cases stage <;> exact infix_of_wrap _ f _ _

theorem failTrace_facts {σ : Type} (env : Env σ) (f : GoString) (stage : Stage) :
    committed (failTrace env f stage) = [] ∧ ∀ ev ∈ failTrace env f stage, ev.file = f := by
  cases stage <;> refine ⟨by simp [failTrace, committed, List.filter_cons], ?_⟩ <;>
    · intro ev hev
      simp only [failTrace, List.mem_cons, List.mem_singleton, List.not_mem_nil, or_false] at hev
      rcases hev with rfl | rfl | rfl | rfl | rfl | rfl | rfl <;> rfl

/-- Either every step succeeds for all the files, or the list splits at the
first file for which a step fails. -/
theorem allSucceed_or_failsAt {σ : Type} (env : Env σ) :
    ∀ (pending L : List GoString) (d : σ),
      AllSucceed env pending L d ∨
      ∃ pre f post stage cause, pending = pre ++ f :: post ∧ AllSucceed env pre L d ∧
        FailsAt env (L ++ pre) (effectsOf env pre d) f stage cause := by
  intro pending
  induction pending with
  | nil => intro L d; exact Or.inl trivial
  | cons p ps ih =>
    intro L d
    have stop : ∀ stage cause, FailsAt env L d p stage cause →
        AllSucceed env (p :: ps) L d ∨
        ∃ pre f post stage cause, p :: ps = pre ++ f :: post ∧ AllSucceed env pre L d ∧
          FailsAt env (L ++ pre) (effectsOf env pre d) f stage cause := by
      intro stage cause h
      refine Or.inr ⟨[], p, ps, stage, cause, rfl, trivial, ?_⟩
      simpa [effectsOf] using h
    cases hread : env.readFile p with
    | error e => exact stop .read e hread
    | ok sql =>
      cases hb : env.beginFault p with
      | some e => exact stop .begin e ⟨⟨sql, hread⟩, hb⟩
      | none =>
        cases hl : env.lockFault p with
        | some e => exact stop .lock e ⟨⟨sql, hread⟩, hb, hl⟩
        | none =>
          cases hr : env.run sql d with
          | error e => exact stop .exec e ⟨sql, hread, hb, hl, hr⟩
          | ok d₁ =>
            cases hi : env.insertFault p with
            | some e => exact stop .insert e ⟨sql, d₁, hread, hb, hl, hr, Or.inl hi⟩
            | none =>
              by_cases hm : p ∈ L
              · exact stop .insert _ ⟨sql, d₁, hread, hb, hl, hr, Or.inr ⟨hi, hm, rfl⟩⟩
              · cases hc : env.commitFault p with
                | some e => exact stop .commit e ⟨sql, d₁, hread, hb, hl, hr, hi, hm, hc⟩
                | none =>
                  have hstep : StepsSucceed env L d p d₁ := ⟨sql, hread, hb, hl, hr, hi, hm, hc⟩
                  rcases ih (L ++ [p]) d₁ with hall | ⟨pre, f, post, stage, cause, h1, h2, h3⟩
                  · exact Or.inl ⟨d₁, hstep, hall⟩
                  · refine Or.inr ⟨p :: pre, f, post, stage, cause, by rw [h1]; rfl,
                      ⟨d₁, hstep, h2⟩, ?_⟩
                    have he₂ : effectsOf env (p :: pre) d = effectsOf env pre d₁ := by
                      simp [effectsOf, contentOf_ok env p sql hread, hr]
                    have hL : L ++ (p :: pre) = L ++ [p] ++ pre := by simp
                    rw [he₂, hL]
                    exact h3

/-- What the run does when, after a successful setup, the files `pre` go
through all their steps and the next file `f` fails at `stage`. -/
theorem ApplyMigrations_of_failsAt {σ : Type} (env : Env σ) (db : DB σ)
    (applied files pre : List GoString) (f : GoString) (post : List GoString)
    (stage : Stage) (cause : Err)
    (hddl : env.ddlFault = none)
    (happlied : getAppliedMigrations env (ensureMigrationsTable env db).1 = .ok applied)
    (hfiles : getMigrationFiles env.readDir = .ok files)
    (hsplit : files.filter (fun f => decide (f ∉ applied)) = pre ++ f :: post)
    (hpre : AllSucceed env pre db.rows db.data)
    (hfail : FailsAt env (db.rows ++ pre) (effectsOf env pre db.data) f stage cause) :
    ApplyMigrations env db =
      ⟨⟨some (db.rows ++ pre), effectsOf env pre db.data⟩, some (failMessage f stage cause),
        pre.flatMap (okTrace env) ++ failTrace env f stage⟩ := by
  obtain ⟨entries, hr, rfl⟩ := getMigrationFiles_ok _ _ hfiles
  rw [ensureMigrationsTable_ok env db hddl] at happlied
  rw [ApplyMigrations_loop env db applied entries hddl happlied hr, applyLoop_filter, hsplit,
    applyLoop_of_allSucceed env (f :: post) pre db.rows db.data hpre,
    applyLoop_of_failsAt env _ _ f post stage cause hfail]

/-- After a successful setup every error of the run comes from a first failing
file: the files before it went through all their steps, one step failed for
it, and the error is the message built for that step. -/
theorem error_of_first_failure {σ : Type} (env : Env σ) (db : DB σ)
    (applied files : List GoString) (e : Err)
    (hddl : env.ddlFault = none)
    (happlied : getAppliedMigrations env (ensureMigrationsTable env db).1 = .ok applied)
    (hfiles : getMigrationFiles env.readDir = .ok files)
    (herr : (ApplyMigrations env db).err = some e) :
    ∃ pre f post stage cause,
      files.filter (fun f => decide (f ∉ applied)) = pre ++ f :: post ∧
      AllSucceed env pre db.rows db.data ∧
      FailsAt env (db.rows ++ pre) (effectsOf env pre db.data) f stage cause ∧
      e = failMessage f stage cause := by
  rcases allSucceed_or_failsAt env (files.filter (fun f => decide (f ∉ applied))) db.rows db.data
    with hall | ⟨pre, f, post, stage, cause, hsplit, hpre, hfail⟩
  · exfalso
    obtain ⟨entries, hr, rfl⟩ := getMigrationFiles_ok _ _ hfiles
    rw [ensureMigrationsTable_ok env db hddl] at happlied
    rw [ApplyMigrations_loop env db applied entries hddl happlied hr, applyLoop_filter] at herr
    have h := applyLoop_of_allSucceed env [] _ db.rows db.data hall
    rw [List.append_nil] at h
    rw [h] at herr
    simp [applyLoop] at herr
  · refine ⟨pre, f, post, stage, cause, hsplit, hpre, hfail, ?_⟩
    rw [ApplyMigrations_of_failsAt env db applied files pre f post stage cause hddl happlied
      hfiles hsplit hpre hfail] at herr
    exact (Option.some.inj herr).symm

/-! ## The claims -/

/-- C1. For every directory listing that was read without error,
`getMigrationFiles` succeeds and returns the names of the entries that are not
directories and whose name ends with `.sql`, in ascending byte-wise
lexicographic order: the result is sorted, it is a permutation of the filtered
names (none added, dropped or duplicated), and it is the only list with these
two properties. -/
theorem getMigrationFiles_sorted_filtered (files : List DirEntry) :
    ∃ out, getMigrationFiles (.ok files) = .ok out ∧
      out.Sorted (fun a b => ¬ List.Lex (fun x y : Nat => x < y) b a) ∧
      out.Perm ((files.filter
        (fun e => !e.isDir && decide (ascii ".sql" <:+ e.name))).map DirEntry.name) ∧
      ∀ other : List GoString,
        other.Sorted (fun a b => ¬ List.Lex (fun x y : Nat => x < y) b a) →
        other.Perm ((files.filter
          (fun e => !e.isDir && decide (ascii ".sql" <:+ e.name))).map DirEntry.name) →
        other = out := by
  have hrel : (fun a b : GoString => ¬ List.Lex (fun x y : Nat => x < y) b a) = strLe := by
    funext a b
    apply propext
    rw [← lessThan_iff_lex]
    simp [strLe]
  have hfil : (fun e : DirEntry => !e.isDir && decide (ascii ".sql" <:+ e.name)) =
      isMigration := by
    funext e
    unfold isMigration
    congr 1
    rw [Bool.eq_iff_iff]
    simp [HasSuffix_iff]
  rw [hrel, hfil]
  refine ⟨sortStrings (collectSqlFiles files), rfl, sortStrings_sorted _, ?_, ?_⟩
  · rw [← collectSqlFiles_eq]
    exact sortStrings_perm _
  · intro other hs hp
    rw [← collectSqlFiles_eq] at hp
    exact sortStrings_unique _ _ hs hp

/-- C2. The order of application does not depend on the order in which the
directory is enumerated: permuting the listing leaves the whole run unchanged.
When the setup succeeds with applied-set `applied` and discovered files
`files`, the files for which `applyMigration` is called, in call order, are an
initial segment of the sorted list of discovered names outside the applied-set;
they are the whole list when the run returns nil, and when it returns an error
they stop at the first file that failed (before it when it could not be read,
with it otherwise), all files before it having been committed.  The entries
`010_c.sql`, `001_a.sql`, `002_b.sql`, listed in any order over an empty
ledger, are applied as `001_a.sql`, `002_b.sql`, `010_c.sql`. -/
theorem apply_order_sorted {σ : Type} :
    (∀ (env : Env σ) (db : DB σ) (l₁ l₂ : List DirEntry), l₁.Perm l₂ →
      ApplyMigrations { env with readDir := .ok l₁ } db =
        ApplyMigrations { env with readDir := .ok l₂ } db) ∧
    (∀ (env : Env σ) (db : DB σ) (applied files : List GoString),
      env.ddlFault = none →
      getAppliedMigrations env (ensureMigrationsTable env db).1 = .ok applied →
      getMigrationFiles env.readDir = .ok files →
      files.Sorted strLe ∧
      calls (ApplyMigrations env db).trace <+: files.filter (fun f => decide (f ∉ applied)) ∧
      ((ApplyMigrations env db).err = none →
        calls (ApplyMigrations env db).trace = files.filter (fun f => decide (f ∉ applied))) ∧
      (∀ e, (ApplyMigrations env db).err = some e →
        ∃ pre f post, files.filter (fun f => decide (f ∉ applied)) = pre ++ f :: post ∧
          committed (ApplyMigrations env db).trace = pre ∧
          (calls (ApplyMigrations env db).trace = pre ∨
            calls (ApplyMigrations env db).trace = pre ++ [f]))) ∧
    (∀ (env : Env σ) (db : DB σ) (entries : List DirEntry),
      entries.Perm [⟨f010, false⟩, ⟨f001, false⟩, ⟨f002, false⟩] →
      env.readDir = .ok entries → env.ddlFault = none → env.readFault = none →
      db.rows = [] →
      calls (ApplyMigrations env db).trace <+: [f001, f002, f010] ∧
      ((ApplyMigrations env db).err = none →
        calls (ApplyMigrations env db).trace = [f001, f002, f010])) := by
  have key : ∀ (env : Env σ) (db : DB σ) (applied files : List GoString),
      env.ddlFault = none →
      getAppliedMigrations env (ensureMigrationsTable env db).1 = .ok applied →
      getMigrationFiles env.readDir = .ok files →
      files.Sorted strLe ∧
      calls (ApplyMigrations env db).trace <+: files.filter (fun f => decide (f ∉ applied)) ∧
      ((ApplyMigrations env db).err = none →
        calls (ApplyMigrations env db).trace = files.filter (fun f => decide (f ∉ applied))) ∧
      (∀ e, (ApplyMigrations env db).err = some e →
        ∃ pre f post, files.filter (fun f => decide (f ∉ applied)) = pre ++ f :: post ∧
          committed (ApplyMigrations env db).trace = pre ∧
          (calls (ApplyMigrations env db).trace = pre ∨
            calls (ApplyMigrations env db).trace = pre ++ [f])) := by
    intro env db applied files hd ha hf
    obtain ⟨entries, hr, rfl⟩ := getMigrationFiles_ok _ _ hf
    rw [ensureMigrationsTable_ok env db hd] at ha
    have hpost := applyLoop_post env applied (sortStrings (collectSqlFiles entries))
      ⟨some db.rows, db.data⟩ db.rows rfl
    rw [← ApplyMigrations_loop env db applied entries hd ha hr] at hpost
    obtain ⟨done, tail, _, h2, _, _, h5⟩ := hpost
    refine ⟨sortStrings_sorted _, ?_⟩
    rw [h2, calls_append, calls_flatMap_okTrace, committed_append, committed_flatMap_okTrace]
    rcases h5 with ⟨hnone, rfl, rfl⟩ | ⟨f, rest, e, hp, he, _, hs⟩
    · refine ⟨by simp [calls], fun _ => by simp [calls], ?_⟩
      intro e he
      rw [hnone] at he
      cases he
    · obtain ⟨hc, hcm, _, _⟩ := hs.calls_committed
      rw [hp, hcm, List.append_nil]
      refine ⟨?_, ?_, ?_⟩
      · rcases hc with hc | hc
        · rw [hc, List.append_nil]
          exact List.prefix_append _ _
        · rw [hc]
          exact ⟨rest, by simp⟩
      · intro hnone
        rw [hnone] at he
        cases he
      · intro e₁ _
        refine ⟨done, f, rest, rfl, rfl, ?_⟩
        rcases hc with hc | hc
        · exact Or.inl (by rw [hc, List.append_nil])
        · exact Or.inr (by rw [hc])
  refine ⟨?_, key, ?_⟩
  · intro env db l₁ l₂ hperm
    refine ApplyMigrations_congr { env with readDir := .ok l₁ } { env with readDir := .ok l₂ }
      ⟨rfl, rfl, rfl, rfl, rfl⟩ rfl rfl ?_ db ?_
    · exact getMigrationFiles_perm l₁ l₂ hperm
    · intro _ _ _ _
      rfl
  · intro env db entries hperm hr hd hclean hrows
    have ha : getAppliedMigrations env (ensureMigrationsTable env db).1 = .ok [] := by
      rw [ensureMigrationsTable_ok env db hd, getAppliedMigrations_clean env _ db.rows rfl hclean,
        hrows]
      rfl
    have hf : getMigrationFiles env.readDir = .ok [f001, f002, f010] := by
      rw [hr, getMigrationFiles_perm _ _ hperm]
      rfl
    obtain ⟨_, h1, h2, _⟩ := key env db [] _ hd ha hf
    have hfil : [f001, f002, f010].filter (fun f => decide (f ∉ ([] : List GoString))) =
        [f001, f002, f010] := by simp
    rw [hfil] at h1 h2
    exact ⟨h1, h2⟩

/-- Instance of C2: two listings of the same directory, a run that stops at
`002_b.sql`, and the three files of the claim listed out of order. -/
theorem apply_order_sorted_witness :
    (ApplyMigrations { demoEnv with readDir := .ok [⟨f010, false⟩, ⟨f001, false⟩] } fresh =
      ApplyMigrations { demoEnv with readDir := .ok [⟨f001, false⟩, ⟨f010, false⟩] } fresh) ∧
    (calls (ApplyMigrations brokenEnv fresh).trace <+: [f001, f002, f010] ∧
      calls (ApplyMigrations brokenEnv fresh).trace = [f001, f002] ∧
      committed (ApplyMigrations brokenEnv fresh).trace = [f001]) ∧
    calls (ApplyMigrations
      { demoEnv with readDir := .ok [⟨f010, false⟩, ⟨f001, false⟩, ⟨f002, false⟩] }
      fresh).trace = [f001, f002, f010] :=
  ⟨apply_order_sorted.1 demoEnv fresh _ _ (List.Perm.swap _ _ _),
    ⟨(apply_order_sorted.2.1 brokenEnv fresh [] [f001, f002, f010] rfl rfl rfl).2.1, rfl, rfl⟩,
    (apply_order_sorted.2.2
      { demoEnv with readDir := .ok [⟨f010, false⟩, ⟨f001, false⟩, ⟨f002, false⟩] }
      fresh _ (List.Perm.refl _) rfl rfl rfl rfl).2 rfl⟩

/-- C3. When the SQL body of a migration fails to execute inside
`applyMigration`, `ApplyMigrations` returns an error whose message contains the
file name, and the transaction is rolled back without an insert or a commit:
the database left by the run is exactly the one produced by the files
committed before it (their ledger rows after the initial ledger, their effects
on the rest of the database), so the failed migration contributes neither an
effect nor a ledger row.  With distinct names in the directory the file is not
among the committed ones, and the final ledger has no row for it if it had
none at the start (as is the case whenever the ledger was read completely). -/
theorem failed_sql_leaves_nothing {σ : Type} (env : Env σ) (db : DB σ) (f sql : GoString)
    (hfail : (⟨.exec sql, f, false⟩ : Event) ∈ (ApplyMigrations env db).trace) :
    (∃ e, (ApplyMigrations env db).err = some e ∧ f <:+: e) ∧
    ∃ pre,
      (ApplyMigrations env db).db = ⟨some (db.rows ++ pre), effectsOf env pre db.data⟩ ∧
      (ApplyMigrations env db).trace = pre.flatMap (okTrace env) ++
        [⟨.read, f, true⟩, ⟨.begin, f, true⟩, ⟨.lock, f, true⟩, ⟨.exec sql, f, false⟩,
          ⟨.rollback, f, true⟩] ∧
      committed (ApplyMigrations env db).trace = pre ∧
      ((∀ entries, env.readDir = .ok entries → (entries.map DirEntry.name).Nodup) →
        f ∉ pre ∧
        ((env.readFault = none ∨ f ∉ db.rows) → f ∉ (ApplyMigrations env db).db.rows)) := by
  rcases ApplyMigrations_post env db with ⟨_, ht, _⟩ | ⟨_, applied, entries, ha, hr, _, hpost⟩
  · rw [ht] at hfail
    cases hfail
  · obtain ⟨done, tail, h1, h2, h3, h4, h5⟩ := hpost
    have htail : (⟨.exec sql, f, false⟩ : Event) ∈ tail := by
      rw [h2, List.mem_append] at hfail
      rcases hfail with hm | hm
      · have := (mem_flatMap_okTrace env done _ hm).2
        cases this
      · exact hm
    rcases h5 with ⟨_, hnil, _⟩ | ⟨f₁, rest, e, hp, he, hinf, hs⟩
    · rw [hnil] at htail
      cases htail
    · have hcm := hs.calls_committed.2.1
      rcases hs with ⟨e₁, _, rfl⟩ | ⟨sql₁, _, _, _, rfl⟩
      · simp at htail
      · have hmem : (⟨.exec sql, f, false⟩ : Event) ∈
            (applyMigration env (ApplyMigrations env db).db f₁ sql₁).trace := by
          rcases List.mem_cons.1 htail with hx | hx
          · cases hx
          · exact hx
        obtain ⟨rfl, rfl, hshape⟩ := applyMigration_exec_false env _ _ _ _ _ hmem
        refine ⟨⟨e, he, hinf⟩, done, h1, ?_, ?_, ?_⟩
        · rw [h2, hshape]
        · rw [h2, committed_append, committed_flatMap_okTrace, hcm, List.append_nil]
        · intro hdir
          have hnd := (getMigrationFiles_nodup entries (hdir entries hr)).filter
            (fun f => decide (f ∉ applied))
          rw [hp] at hnd
          have hfd : f ∉ done := fun hd =>
            (List.nodup_append.1 hnd).2.2 hd (List.mem_cons_self _ _)
          refine ⟨hfd, ?_⟩
          intro hor
          have hfL : f ∉ db.rows := by
            rcases hor with hclean | hno
            · have hfp : f ∈ (sortStrings (collectSqlFiles entries)).filter
                  (fun f => decide (f ∉ applied)) := by
                rw [hp]
                simp
              have hfa : f ∉ applied := by simpa using (List.mem_filter.1 hfp).2
              rw [getAppliedMigrations_clean env _ db.rows rfl hclean] at ha
              cases ha
              exact fun hx => hfa (List.mem_reverse.2 hx)
            · exact hno
          rw [h1, rows_mk, List.mem_append]
          rintro (hx | hx)
          · exact hfL hx
          · exact hfd hx

/-- Instance of C3: the body of `002_b.sql` is rejected after `001_a.sql` was
committed. -/
theorem failed_sql_leaves_nothing_witness :
    (⟨.exec (ascii "-- " ++ f002), f002, false⟩ : Event) ∈ (ApplyMigrations brokenEnv fresh).trace ∧
    (ApplyMigrations brokenEnv fresh).db = ⟨some [f001], [ascii "-- " ++ f001]⟩ ∧
    ((∃ e, (ApplyMigrations brokenEnv fresh).err = some e ∧ f002 <:+: e) ∧
      ∃ pre,
        (ApplyMigrations brokenEnv fresh).db =
          ⟨some (fresh.rows ++ pre), effectsOf brokenEnv pre fresh.data⟩ ∧
        (ApplyMigrations brokenEnv fresh).trace = pre.flatMap (okTrace brokenEnv) ++
          [⟨.read, f002, true⟩, ⟨.begin, f002, true⟩, ⟨.lock, f002, true⟩,
            ⟨.exec (ascii "-- " ++ f002), f002, false⟩, ⟨.rollback, f002, true⟩] ∧
        committed (ApplyMigrations brokenEnv fresh).trace = pre ∧
        ((∀ entries, brokenEnv.readDir = .ok entries → (entries.map DirEntry.name).Nodup) →
          f002 ∉ pre ∧
          ((brokenEnv.readFault = none ∨ f002 ∉ fresh.rows) →
            f002 ∉ (ApplyMigrations brokenEnv fresh).db.rows))) :=
  ⟨by decide, rfl, failed_sql_leaves_nothing brokenEnv fresh f002 (ascii "-- " ++ f002) (by decide)⟩

/-- C4. In the same situation `002_b.sql` is in the ledger when the applied-set
is read, and the run nevertheless reads the file and executes its SQL inside a
transaction, which is rolled back when the insert violates the unique
constraint. -/
theorem recorded_file_is_executed_again :
    f002 ∈ twoApplied.rows ∧
    (⟨.read, f002, true⟩ : Event) ∈ (ApplyMigrations truncatedEnv twoApplied).trace ∧
    (⟨.exec (ascii "-- " ++ f002), f002, true⟩ : Event) ∈
      (ApplyMigrations truncatedEnv twoApplied).trace ∧
    (⟨.insert, f002, false⟩ : Event) ∈ (ApplyMigrations truncatedEnv twoApplied).trace ∧
    (ApplyMigrations truncatedEnv twoApplied).db = twoApplied := by
  decide

/-- C5. Idempotence: when a run of `ApplyMigrations` returned nil and a second
run starts from the state it left, over the same directory listing, with
ledger bootstrap, ledger read and directory read succeeding, the second run
makes no call at all (it reads no file and never enters `applyMigration`),
leaves the database as it found it, and returns nil. -/
theorem second_run_is_noop {σ : Type} (env₁ env₂ : Env σ) (db : DB σ)
    (hfirst : (ApplyMigrations env₁ db).err = none)
    (hdir : env₂.readDir = env₁.readDir)
    (hddl : env₂.ddlFault = none) (hread : env₂.readFault = none) :
    (ApplyMigrations env₂ (ApplyMigrations env₁ db).db).trace = [] ∧
      calls (ApplyMigrations env₂ (ApplyMigrations env₁ db).db).trace = [] ∧
      (ApplyMigrations env₂ (ApplyMigrations env₁ db).db).db = (ApplyMigrations env₁ db).db ∧
      (ApplyMigrations env₂ (ApplyMigrations env₁ db).db).err = none := by
  rcases ApplyMigrations_post env₁ db with ⟨⟨e, he⟩, _⟩ | ⟨_, applied, entries, ha, hr, _, hpost⟩
  · rw [hfirst] at he
    cases he
  · obtain ⟨done, tail, h1, _, _, _, h5⟩ := hpost
    rcases h5 with ⟨_, _, hdone⟩ | ⟨f, rest, e, _, he, _, _⟩
    · have hled : (ApplyMigrations env₁ db).db.ledger = some (db.rows ++ done) := by rw [h1]
      have hrows : (ApplyMigrations env₁ db).db.rows = db.rows ++ done := by rw [h1]; rfl
      have heta := DB.eta_rows _ _ hled
      have ha₂ : getAppliedMigrations env₂
          ⟨some (ApplyMigrations env₁ db).db.rows, (ApplyMigrations env₁ db).db.data⟩ =
          .ok (db.rows ++ done).reverse := by
        rw [heta]
        exact getAppliedMigrations_clean env₂ _ _ hled hread
      have hr₂ : env₂.readDir = .ok entries := by rw [hdir, hr]
      rw [ApplyMigrations_loop env₂ _ _ entries hddl ha₂ hr₂, heta]
      rw [applyLoop_all_applied env₂ _ _ _ ?_]
      · exact ⟨rfl, rfl, rfl, rfl⟩
      · intro f hf
        rw [List.mem_reverse, List.mem_append]
        by_cases hfa : f ∈ applied
        · exact Or.inl (getAppliedMigrations_subset env₁ _ applied ha f hfa)
        · right
          rw [hdone]
          exact List.mem_filter.2 ⟨hf, by simpa using hfa⟩
    · rw [hfirst] at he
      cases he

/-- Instance of C5: two runs in a row over `demoDir`, starting without a ledger. -/
theorem second_run_is_noop_witness :
    (ApplyMigrations demoEnv fresh).err = none ∧
    (ApplyMigrations demoEnv fresh).db.rows = [f001, f002, f010] ∧
    (ApplyMigrations demoEnv (ApplyMigrations demoEnv fresh).db).trace = [] ∧
    calls (ApplyMigrations demoEnv (ApplyMigrations demoEnv fresh).db).trace = [] ∧
    (ApplyMigrations demoEnv (ApplyMigrations demoEnv fresh).db).db =
      (ApplyMigrations demoEnv fresh).db ∧
    (ApplyMigrations demoEnv (ApplyMigrations demoEnv fresh).db).err = none :=
  ⟨rfl, rfl, second_run_is_noop demoEnv demoEnv fresh rfl rfl rfl rfl⟩

/-- C6. A run that returns nil committed every discovered file that was not in
the applied-set: the ledger is the initial ledger followed by exactly those
files in sorted order, one new row each (they are pairwise distinct and none
was recorded before), the set of recorded names is the initial set united with the discovered names;
and with an empty directory and an empty ledger a run without I/O failure
returns nil, makes no call and leaves the ledger empty. -/
theorem success_commits_all {σ : Type} (env : Env σ) (db : DB σ) :
    ((ApplyMigrations env db).err = none →
      ∃ applied files,
        getAppliedMigrations env (ensureMigrationsTable env db).1 = .ok applied ∧
        getMigrationFiles env.readDir = .ok files ∧
        (ApplyMigrations env db).db.rows = db.rows ++ files.filter (fun f => decide (f ∉ applied)) ∧
        committed (ApplyMigrations env db).trace = files.filter (fun f => decide (f ∉ applied)) ∧
        (files.filter (fun f => decide (f ∉ applied))).Nodup ∧
        (∀ f ∈ files.filter (fun f => decide (f ∉ applied)), f ∉ db.rows) ∧
        (∀ x, x ∈ (ApplyMigrations env db).db.rows ↔ x ∈ db.rows ∨ x ∈ files)) ∧
    (env.ddlFault = none → env.readFault = none → env.readDir = .ok [] → db.rows = [] →
      (ApplyMigrations env db).err = none ∧ (ApplyMigrations env db).db.rows = [] ∧
        (ApplyMigrations env db).trace = []) := by
  constructor
  · intro herr
    rcases ApplyMigrations_post env db with ⟨⟨e, he⟩, _⟩ | ⟨hd, applied, entries, ha, hr, _, hpost⟩
    · rw [herr] at he
      cases he
    · obtain ⟨done, tail, h1, h2, h3, h4, h5⟩ := hpost
      rcases h5 with ⟨_, htail, hdone⟩ | ⟨f, rest, e, _, he, _, _⟩
      · subst hdone
        subst htail
        refine ⟨applied, sortStrings (collectSqlFiles entries), ?_, ?_, ?_, ?_, h4, h3, ?_⟩
        · rw [ensureMigrationsTable_ok env db hd]
          exact ha
        · rw [hr]
          rfl
        · rw [h1]
          rfl
        · rw [h2, List.append_nil, committed_flatMap_okTrace]
        · intro x
          rw [h1, rows_mk, List.mem_append]
          constructor
          · rintro (hx | hx)
            · exact Or.inl hx
            · exact Or.inr (List.mem_of_mem_filter hx)
          · rintro (hx | hx)
            · exact Or.inl hx
            · by_cases hxa : x ∈ applied
              · exact Or.inl (getAppliedMigrations_subset env _ applied ha x hxa)
              · exact Or.inr (List.mem_filter.2 ⟨hx, by simpa using hxa⟩)
      · rw [herr] at he
        cases he
  · intro hd hf hr hrows
    have ha : getAppliedMigrations env ⟨some db.rows, db.data⟩ = .ok [] := by
      rw [getAppliedMigrations_clean env _ db.rows rfl hf, hrows]
      rfl
    rw [ApplyMigrations_loop env db [] [] hd ha hr]
    simp [collectSqlFiles, sortStrings, applyLoop, hrows, rows_mk]

/-- Instance of C6: a run over `demoDir` with two files already recorded, and a
run over an empty directory without a ledger. -/
theorem success_commits_all_witness :
    (ApplyMigrations demoEnv twoApplied).err = none ∧
    (ApplyMigrations demoEnv twoApplied).db.rows = [f001, f002, f010] ∧
    (∃ applied files,
      getAppliedMigrations demoEnv (ensureMigrationsTable demoEnv twoApplied).1 = .ok applied ∧
      getMigrationFiles demoEnv.readDir = .ok files ∧
      (ApplyMigrations demoEnv twoApplied).db.rows =
        twoApplied.rows ++ files.filter (fun f => decide (f ∉ applied)) ∧
      committed (ApplyMigrations demoEnv twoApplied).trace =
        files.filter (fun f => decide (f ∉ applied)) ∧
      (files.filter (fun f => decide (f ∉ applied))).Nodup ∧
      (∀ f ∈ files.filter (fun f => decide (f ∉ applied)), f ∉ twoApplied.rows) ∧
      (∀ x, x ∈ (ApplyMigrations demoEnv twoApplied).db.rows ↔ x ∈ twoApplied.rows ∨ x ∈ files)) ∧
    ((ApplyMigrations { demoEnv with readDir := .ok [] } fresh).err = none ∧
      (ApplyMigrations { demoEnv with readDir := .ok [] } fresh).db.rows = [] ∧
      (ApplyMigrations { demoEnv with readDir := .ok [] } fresh).trace = []) :=
  ⟨rfl, rfl, (success_commits_all demoEnv twoApplied).1 rfl,
    (success_commits_all { demoEnv with readDir := .ok [] } fresh).2 rfl rfl rfl rfl⟩

/-- C7. First-failure abort.  Let the setup of a run succeed and let the sorted
list of discovered files outside the applied-set be `pre ++ f :: post`, where
every step succeeds for the files of `pre` in turn and `f` is the first file
for which a step fails: the file read, `Begin`, the advisory lock, the
execution of the body, the ledger insert, or `Commit`.  Then `ApplyMigrations`
returns the error built for that step, which contains the name `f`; the files
of `pre` are committed and the database is the one they leave (the ledger is
the initial ledger followed by their rows); the calls of the run are those for
`pre` followed by the calls for `f` up to the failing step, so none is made
for a file of `post`; and in any later run from that state the rows of `pre`
are still there and none of these files is committed again, a later run that
reads the ledger completely, or that returns nil, making no call at all for
them. -/
theorem first_failure_aborts {σ : Type} (env : Env σ) (db : DB σ)
    (applied files pre : List GoString) (f : GoString) (post : List GoString)
    (stage : Stage) (cause : Err)
    (hddl : env.ddlFault = none)
    (happlied : getAppliedMigrations env (ensureMigrationsTable env db).1 = .ok applied)
    (hfiles : getMigrationFiles env.readDir = .ok files)
    (hsplit : files.filter (fun f => decide (f ∉ applied)) = pre ++ f :: post)
    (hpre : AllSucceed env pre db.rows db.data)
    (hfail : FailsAt env (db.rows ++ pre) (effectsOf env pre db.data) f stage cause) :
    (ApplyMigrations env db).err = some (failMessage f stage cause) ∧
      f <:+: failMessage f stage cause ∧
      (ApplyMigrations env db).db = ⟨some (db.rows ++ pre), effectsOf env pre db.data⟩ ∧
      (ApplyMigrations env db).db.rows = db.rows ++ pre ∧
      (ApplyMigrations env db).trace = pre.flatMap (okTrace env) ++ failTrace env f stage ∧
      committed (ApplyMigrations env db).trace = pre ∧
      (∀ ev ∈ (ApplyMigrations env db).trace, ev.file ∈ pre ∨ ev.file = f) ∧
      ∀ (later : Env σ), ∀ g ∈ pre,
        g ∈ (ApplyMigrations later (ApplyMigrations env db).db).db.rows ∧
        g ∉ committed (ApplyMigrations later (ApplyMigrations env db).db).trace ∧
        ((later.readFault = none ∨
            (ApplyMigrations later (ApplyMigrations env db).db).err = none) →
          ∀ ev ∈ (ApplyMigrations later (ApplyMigrations env db).db).trace, ev.file ≠ g) := by
  have heq := ApplyMigrations_of_failsAt env db applied files pre f post stage cause hddl
    happlied hfiles hsplit hpre hfail
  have hrows : (ApplyMigrations env db).db.rows = db.rows ++ pre := by rw [heq]; rfl
  refine ⟨by rw [heq], infix_failMessage f stage cause, by rw [heq], hrows, by rw [heq], ?_, ?_,
    ?_⟩
  · rw [heq]
    simp only
    rw [committed_append, committed_flatMap_okTrace, (failTrace_facts env f stage).1,
      List.append_nil]
  · intro ev hev
    rw [heq] at hev
    simp only at hev
    rcases List.mem_append.1 hev with h | h
    · exact Or.inl (mem_flatMap_okTrace env pre ev h).1
    · exact Or.inr ((failTrace_facts env f stage).2 ev h)
  · intro later g hg
    have hgr : g ∈ (ApplyMigrations env db).db.rows := by
      rw [hrows]
      exact List.mem_append_right _ hg
    obtain ⟨k1, k2⟩ := recorded_not_recommitted later _ g hgr
    exact ⟨k1, k2, recorded_untouched later _ g hgr⟩

/-- Instance of C7: over `demoDir` and without a ledger, `001_a.sql` is
committed and `002_b.sql` fails, once at each of the six steps; every run
returns the error of that step and leaves the ledger with `001_a.sql` only. -/
theorem first_failure_aborts_witness :
    ((ApplyMigrations (faultyEnv .read) fresh).err =
        some (ascii "error reading migration file 002_b.sql: permission denied") ∧
      (ApplyMigrations (faultyEnv .read) fresh).db = ⟨some [f001], [ascii "-- " ++ f001]⟩) ∧
    ((ApplyMigrations (faultyEnv .begin) fresh).err =
        some (ascii ("error applying migration 002_b.sql: " ++
          "failed to begin transaction: conn closed")) ∧
      (ApplyMigrations (faultyEnv .begin) fresh).db = ⟨some [f001], [ascii "-- " ++ f001]⟩) ∧
    ((ApplyMigrations (faultyEnv .lock) fresh).err =
        some (ascii ("error applying migration 002_b.sql: " ++
          "failed to acquire advisory lock: canceled")) ∧
      (ApplyMigrations (faultyEnv .lock) fresh).db = ⟨some [f001], [ascii "-- " ++ f001]⟩) ∧
    ((ApplyMigrations (faultyEnv .exec) fresh).err =
        some (ascii ("error applying migration 002_b.sql: " ++
          "failed to execute migration 002_b.sql: syntax error")) ∧
      (ApplyMigrations (faultyEnv .exec) fresh).db = ⟨some [f001], [ascii "-- " ++ f001]⟩) ∧
    ((ApplyMigrations (faultyEnv .insert) fresh).err =
        some (ascii ("error applying migration 002_b.sql: " ++
          "failed to record migration 002_b.sql: table dropped")) ∧
      (ApplyMigrations (faultyEnv .insert) fresh).db = ⟨some [f001], [ascii "-- " ++ f001]⟩) ∧
    ((ApplyMigrations (faultyEnv .commit) fresh).err =
        some (ascii "error applying migration 002_b.sql: commit refused") ∧
      (ApplyMigrations (faultyEnv .commit) fresh).db = ⟨some [f001], [ascii "-- " ++ f001]⟩) :=
  ⟨⟨(first_failure_aborts (faultyEnv .read) fresh [] [f001, f002, f010] [f001] f002 [f010]
        .read (ascii "permission denied") rfl rfl rfl rfl
        ⟨_, ⟨_, rfl, rfl, rfl, rfl, rfl, by decide, rfl⟩, trivial⟩ rfl).1,
      (first_failure_aborts (faultyEnv .read) fresh [] [f001, f002, f010] [f001] f002 [f010]
        .read (ascii "permission denied") rfl rfl rfl rfl
        ⟨_, ⟨_, rfl, rfl, rfl, rfl, rfl, by decide, rfl⟩, trivial⟩ rfl).2.2.1⟩,
    ⟨(first_failure_aborts (faultyEnv .begin) fresh [] [f001, f002, f010] [f001] f002 [f010]
        .begin (ascii "conn closed") rfl rfl rfl rfl
        ⟨_, ⟨_, rfl, rfl, rfl, rfl, rfl, by decide, rfl⟩, trivial⟩ ⟨⟨_, rfl⟩, rfl⟩).1,
      (first_failure_aborts (faultyEnv .begin) fresh [] [f001, f002, f010] [f001] f002 [f010]
        .begin (ascii "conn closed") rfl rfl rfl rfl
        ⟨_, ⟨_, rfl, rfl, rfl, rfl, rfl, by decide, rfl⟩, trivial⟩ ⟨⟨_, rfl⟩, rfl⟩).2.2.1⟩,
    ⟨(first_failure_aborts (faultyEnv .lock) fresh [] [f001, f002, f010] [f001] f002 [f010]
        .lock (ascii "canceled") rfl rfl rfl rfl
        ⟨_, ⟨_, rfl, rfl, rfl, rfl, rfl, by decide, rfl⟩, trivial⟩ ⟨⟨_, rfl⟩, rfl, rfl⟩).1,
      (first_failure_aborts (faultyEnv .lock) fresh [] [f001, f002, f010] [f001] f002 [f010]
        .lock (ascii "canceled") rfl rfl rfl rfl
        ⟨_, ⟨_, rfl, rfl, rfl, rfl, rfl, by decide, rfl⟩, trivial⟩ ⟨⟨_, rfl⟩, rfl, rfl⟩).2.2.1⟩,
    ⟨(first_failure_aborts (faultyEnv .exec) fresh [] [f001, f002, f010] [f001] f002 [f010]
        .exec (ascii "syntax error") rfl rfl rfl rfl
        ⟨_, ⟨_, rfl, rfl, rfl, rfl, rfl, by decide, rfl⟩, trivial⟩ ⟨_, rfl, rfl, rfl, rfl⟩).1,
      (first_failure_aborts (faultyEnv .exec) fresh [] [f001, f002, f010] [f001] f002 [f010]
        .exec (ascii "syntax error") rfl rfl rfl rfl
        ⟨_, ⟨_, rfl, rfl, rfl, rfl, rfl, by decide, rfl⟩, trivial⟩
        ⟨_, rfl, rfl, rfl, rfl⟩).2.2.1⟩,
    ⟨(first_failure_aborts (faultyEnv .insert) fresh [] [f001, f002, f010] [f001] f002 [f010]
        .insert (ascii "table dropped") rfl rfl rfl rfl
        ⟨_, ⟨_, rfl, rfl, rfl, rfl, rfl, by decide, rfl⟩, trivial⟩
        ⟨_, _, rfl, rfl, rfl, rfl, Or.inl rfl⟩).1,
      (first_failure_aborts (faultyEnv .insert) fresh [] [f001, f002, f010] [f001] f002 [f010]
        .insert (ascii "table dropped") rfl rfl rfl rfl
        ⟨_, ⟨_, rfl, rfl, rfl, rfl, rfl, by decide, rfl⟩, trivial⟩
        ⟨_, _, rfl, rfl, rfl, rfl, Or.inl rfl⟩).2.2.1⟩,
    ⟨(first_failure_aborts (faultyEnv .commit) fresh [] [f001, f002, f010] [f001] f002 [f010]
        .commit (ascii "commit refused") rfl rfl rfl rfl
        ⟨_, ⟨_, rfl, rfl, rfl, rfl, rfl, by decide, rfl⟩, trivial⟩
        ⟨_, _, rfl, rfl, rfl, rfl, rfl, by decide, rfl⟩).1,
      (first_failure_aborts (faultyEnv .commit) fresh [] [f001, f002, f010] [f001] f002 [f010]
        .commit (ascii "commit refused") rfl rfl rfl rfl
        ⟨_, ⟨_, rfl, rfl, rfl, rfl, rfl, by decide, rfl⟩, trivial⟩
        ⟨_, _, rfl, rfl, rfl, rfl, rfl, by decide, rfl⟩).2.2.1⟩⟩

/-- C8. The ledger holds `001_a.sql` and `002_b.sql` and the row stream breaks
after the first row, so that `rows.Err()` is non-nil when the loop ends:
`getAppliedMigrations` returns the partial set `001_a.sql` with a nil error, and
`ApplyMigrations` goes on to read `002_b.sql` and to open a transaction for it
instead of returning the read failure. -/
theorem getAppliedMigrations_ignores_rows_err :
    (∃ rows, query truncatedEnv twoApplied = .ok rows ∧ rows.pending = [.ok f001] ∧
      rows.err = some (ascii "unexpected EOF")) ∧
    getAppliedMigrations truncatedEnv twoApplied = .ok [f001] ∧
    (ApplyMigrations truncatedEnv twoApplied).trace =
      [⟨.read, f002, true⟩, ⟨.begin, f002, true⟩, ⟨.lock, f002, true⟩,
        ⟨.exec (ascii "-- " ++ f002), f002, true⟩, ⟨.insert, f002, false⟩,
        ⟨.rollback, f002, true⟩] ∧
    (ApplyMigrations truncatedEnv twoApplied).err =
      some (ascii ("error applying migration 002_b.sql: failed to record migration " ++
        "002_b.sql: duplicate key value violates unique constraint")) :=
  ⟨⟨_, rfl, rfl, rfl⟩, rfl, rfl, rfl⟩

/-- C9. Ledger invariant under a single runner: if the ledger has at most one
entry per filename before a run of `ApplyMigrations`, it has at most one entry
per filename after it, whether the run fails or not, and the ledger found by
the run is an initial segment of the ledger it leaves: rows are only appended,
never changed or removed. -/
theorem ledger_append_only {σ : Type} (env : Env σ) (db : DB σ) (h : db.rows.Nodup) :
    (ApplyMigrations env db).db.rows.Nodup ∧ db.rows <+: (ApplyMigrations env db).db.rows := by
  obtain ⟨done, h1, h2, h3, _, _⟩ := ApplyMigrations_rows env db
  rw [h1]
  refine ⟨List.nodup_append.2 ⟨h, h2, ?_⟩, List.prefix_append _ _⟩
  intro a ha hb
  exact h3 a hb ha

/-- Instance of C9: a run over `demoDir` with two files already recorded. -/
theorem ledger_append_only_witness :
    twoApplied.rows.Nodup ∧ (ApplyMigrations demoEnv twoApplied).db.rows = [f001, f002, f010] ∧
    (ApplyMigrations demoEnv twoApplied).db.rows.Nodup ∧
    twoApplied.rows <+: (ApplyMigrations demoEnv twoApplied).db.rows :=
  ⟨by decide, rfl, ledger_append_only demoEnv twoApplied (by decide)⟩

end Mig
